import Mathlib

/-!
# gopherize-photo: the compositing arithmetic and the orchestration of `run`

A shallow embedding of `main.go`.

* Go `int` values are modelled as `Int`; coordinates of images lie far inside the range of the
  64-bit `int`.  The machine width is visible in the two conversions of the loop body:
  `int(f)` yields a value of the `int64` range, and `uint(size)` is modelled with an explicit
  `% 2 ^ 64`.
* `float64` arithmetic is modelled exactly: a finite `float64` is the rational number it
  denotes, a product is the exact product rounded to the nearest `float64` (ties to even), and
  `int(f)` discards the fraction.
* Images are a bounds rectangle together with a pixel function, exactly the two methods of the
  `image.Image` interface that the program uses (`Bounds`, `At`).
* The external collaborators (`resize.Resize`, the cascade classifier, the codecs, the file
  system) are parameters: the resizer is a function argument of the compositing definitions and
  the outcomes of the fallible library calls are fields of `Env`.
-/

namespace Gopherize

/-! ## `image.Point` and `image.Rectangle` -/

/-- An `image.Point`. -/
structure Point where
  X : Int
  Y : Int
deriving DecidableEq, Repr

/-- An `image.Rectangle`: contains the points with `Min.X ≤ X < Max.X`, `Min.Y ≤ Y < Max.Y`. -/
structure Rectangle where
  Min : Point
  Max : Point
deriving DecidableEq, Repr

/-- The shorthand `image.Pt(X, Y)`. -/
def Pt (X Y : Int) : Point := ⟨X, Y⟩

/-- The method `Point.Add`. -/
def Point.Add (p q : Point) : Point := ⟨p.X + q.X, p.Y + q.Y⟩

/-- The method `Point.Sub`. -/
def Point.Sub (p q : Point) : Point := ⟨p.X - q.X, p.Y - q.Y⟩

/-- The method `Rectangle.Dx`: the width. -/
def Rectangle.Dx (r : Rectangle) : Int := r.Max.X - r.Min.X

/-- The method `Rectangle.Dy`: the height. -/
def Rectangle.Dy (r : Rectangle) : Int := r.Max.Y - r.Min.Y

/-- The method `Rectangle.Empty`: whether the rectangle contains no points. -/
def Rectangle.Empty (r : Rectangle) : Bool :=
  decide (r.Min.X ≥ r.Max.X) || decide (r.Min.Y ≥ r.Max.Y)

/-- The method `Rectangle.Add`: the rectangle translated by `p`. -/
def Rectangle.Add (r : Rectangle) (p : Point) : Rectangle :=
  ⟨⟨r.Min.X + p.X, r.Min.Y + p.Y⟩, ⟨r.Max.X + p.X, r.Max.Y + p.Y⟩⟩

/-- The zero rectangle `image.ZR`. -/
def ZR : Rectangle := ⟨⟨0, 0⟩, ⟨0, 0⟩⟩

/-- The method `Rectangle.Intersect`: the largest rectangle contained in both, or `ZR` when the
two do not overlap. -/
def Rectangle.Intersect (r s : Rectangle) : Rectangle :=
  let r1 : Rectangle :=
    ⟨⟨if r.Min.X < s.Min.X then s.Min.X else r.Min.X,
      if r.Min.Y < s.Min.Y then s.Min.Y else r.Min.Y⟩,
     ⟨if r.Max.X > s.Max.X then s.Max.X else r.Max.X,
      if r.Max.Y > s.Max.Y then s.Max.Y else r.Max.Y⟩⟩
  if r1.Empty then ZR else r1

/-- The method `Point.In`: whether `p` lies in `r`. -/
def Point.In (p : Point) (r : Rectangle) : Bool :=
  decide (r.Min.X ≤ p.X) && decide (p.X < r.Max.X) &&
    decide (r.Min.Y ≤ p.Y) && decide (p.Y < r.Max.Y)

/-! ## Colours and images -/

/-- What `color.Color.RGBA()` returns: alpha-premultiplied red, green, blue and alpha, each in
the range `[0, 0xffff]`. -/
structure Color where
  R : Fin 65536
  G : Fin 65536
  B : Fin 65536
  A : Fin 65536
deriving DecidableEq, Repr

/-- A `color.RGBA`: one pixel of an `*image.RGBA`, four 8-bit alpha-premultiplied channels. -/
structure RGBA where
  R : Fin 256
  G : Fin 256
  B : Fin 256
  A : Fin 256
deriving DecidableEq, Repr

/-- An `image.Image`, through the two methods the program uses: `Bounds()` and `At(x, y)`. -/
structure Image where
  Bounds : Rectangle
  At : Int → Int → Color

/-- An `*image.RGBA`: its rectangle and its pixel store, addressed by pixel coordinates. -/
structure RGBAImage where
  Rect : Rectangle
  Pix : Int → Int → RGBA

/-- The constructor `image.NewRGBA(r)`: a buffer with bounds `r`, every channel zero. -/
def NewRGBA (r : Rectangle) : RGBAImage := ⟨r, fun _ _ => ⟨0, 0, 0, 0⟩⟩

/-- The conversion `color.RGBAModel.Convert`: each 16-bit channel `c` becomes `uint8(c >> 8)`. -/
def rgbaModel (c : Color) : RGBA :=
  ⟨Fin.ofNat (c.R.val >>> 8), Fin.ofNat (c.G.val >>> 8),
   Fin.ofNat (c.B.val >>> 8), Fin.ofNat (c.A.val >>> 8)⟩

/-! ## `draw.Draw(dst, r, src, sp, draw.Over)` -/

/-- The maximal 16-bit channel value, `m = 1<<16 - 1` of package `image/draw`. -/
def m : Nat := 65535

/-- One channel of the `Over` operator as `drawRGBA` computes it in `uint32` arithmetic:
`uint8((d*a + s*m) / m >> 8)`, for the 8-bit destination channel `d`, the 16-bit source
channel `s` and the blend factor `a`. -/
def overChannel (d : Fin 256) (s : Fin 65536) (a : Nat) : Fin 256 :=
  Fin.ofNat ((((d.val * a + s.val * m) % 2 ^ 32) / m) >>> 8)

/-- The `Over` operator with a nil mask on one pixel, as `drawRGBA`, the general path of
package `image/draw`, computes it: the source colour `s` composed over the destination pixel
`d`, with `a = (m - sa) * 0x101`.  The paths specialised by the type of the source give the
same pixel for alpha-premultiplied colours, in which no channel exceeds alpha. -/
def over (s : Color) (d : RGBA) : RGBA :=
  let a := (m - s.A.val) * 257
  ⟨overChannel d.R s.R a, overChannel d.G s.G a, overChannel d.B s.B a, overChannel d.A s.A a⟩

/-- The helper `clip` of package `image/draw` with a nil mask: the rectangle `r` clipped to the
destination bounds and to the source bounds (translated so that `r.Min` is aligned with `sp`),
and the source point moved along with the clipped `r.Min`. -/
def clip (dst : RGBAImage) (r : Rectangle) (src : Image) (sp : Point) : Rectangle × Point :=
  let orig := r.Min
  let r1 := r.Intersect dst.Rect
  let r2 := r1.Intersect (src.Bounds.Add (orig.Sub sp))
  let dx := r2.Min.X - orig.X
  let dy := r2.Min.Y - orig.Y
  (r2, ⟨sp.X + dx, sp.Y + dy⟩)

/-- The call `draw.Draw(dst, r, src, sp, draw.Over)`: after clipping, every destination pixel
of the clipped rectangle receives the source pixel aligned with it, composed over the old
value; nothing happens when the clipped rectangle is empty. -/
def drawDraw (dst : RGBAImage) (r : Rectangle) (src : Image) (sp : Point) : RGBAImage :=
  let c := clip dst r src sp
  if c.1.Empty then dst
  else
    { dst with
      Pix := fun x y =>
        if (Pt x y).In c.1 then
          over (src.At (c.2.X + (x - c.1.Min.X)) (c.2.Y + (y - c.1.Min.Y))) (dst.Pix x y)
        else dst.Pix x y }

/-! ## `float64` values and the conversions of `run` -/

/-- A `float64` value as far as `run` can observe it: `some q` is the finite value `q`, and
`none` stands for `+Inf`, `-Inf` and `NaN`, which the conversion to `int` does not tell apart
(nor does it tell the two zeros apart). -/
abbrev Float64 := Option ℚ

/-- The integer `q` becomes when its fraction is discarded (rounding toward zero). -/
def truncate (q : ℚ) : Int := if 0 ≤ q then ⌊q⌋ else ⌈q⌉

/-- The exponent of the unit in the last place of the `float64` values around `q`: 52 binary
places below the leading bit of `q`, and `-1074` in the subnormal range. -/
def ulpExp (q : ℚ) : Int := max (Int.log 2 |q|) (-1022) - 52

/-- The integer nearest to `x`, the even one of the two when `x` lies halfway. -/
def roundHalfEven (x : ℚ) : Int :=
  if x - ⌊x⌋ < 1 / 2 then ⌊x⌋
  else if 1 / 2 < x - ⌊x⌋ then ⌊x⌋ + 1
  else if ⌊x⌋ % 2 = 0 then ⌊x⌋ else ⌊x⌋ + 1

/-- The multiple of the unit in the last place nearest to `q`, ties to the even significand:
the IEEE 754 rounding of `q` to 53 significant bits, before the check for overflow. -/
def roundNearest (q : ℚ) : ℚ := (roundHalfEven (q / 2 ^ ulpExp q) : ℚ) * 2 ^ ulpExp q

/-- The `float64` nearest to the real number `q` (round to nearest, ties to even): the result
of every correctly rounded `float64` operation whose exact result is `q`.  A result of
magnitude `2^1024` or more overflows to an infinity. -/
def fl64 (q : ℚ) : Float64 :=
  if |roundNearest q| < 2 ^ 1024 then some (roundNearest q) else none

/-- The Go conversion `float64(n)` of an `int`. -/
def float64OfInt (n : Int) : Float64 := fl64 (n : ℚ)

/-- The Go product `a * b` of two `float64` values: the exact product, rounded.  A product
with an operand that is not finite is not finite. -/
def float64Mul (a b : Float64) : Float64 :=
  match a, b with
  | some x, some y => fl64 (x * y)
  | _, _ => none

/-- The Go conversion `int(f)` of a `float64` to the 64-bit `int`: the fraction is discarded
(truncation toward zero).  When the truncated value does not fit the `int`, or `f` is not
finite, the language leaves the result to the implementation; the value here, `-2^63`, is
what the conversion instruction of amd64 yields. -/
def goInt (f : Float64) : Int :=
  match f with
  | some q => if -2 ^ 63 ≤ truncate q ∧ truncate q < 2 ^ 63 then truncate q else -2 ^ 63
  | none => -2 ^ 63

/-- The Go conversion `uint(n)` of an `int` on a 64-bit platform: the two's-complement bit
pattern read as unsigned. -/
def goUint (n : Int) : Nat := (n % 2 ^ 64).toNat

/-! ## The per-rectangle arithmetic of `run`

A coefficient is given as a rational number: the value of the `float64` variable when it is
one, and otherwise the number on the command line, which flag parsing rounds to the nearest
`float64`.  The non-finite values that flag parsing also accepts are not covered. -/

/-- The `float64` value `float64(rect.Max.X-rect.Min.X) * gopherSizeCoeff` of the first line
of the loop body. -/
def sizeFloat (rect : Rectangle) (gopherSizeCoeff : ℚ) : Float64 :=
  float64Mul (float64OfInt (rect.Max.X - rect.Min.X)) (fl64 gopherSizeCoeff)

/-- The line `size := int(float64(rect.Max.X-rect.Min.X) * gopherSizeCoeff)`. -/
def size (rect : Rectangle) (gopherSizeCoeff : ℚ) : Int :=
  goInt (sizeFloat rect gopherSizeCoeff)

/-- The `float64` value `float64(size) * gopherXCoeff`. -/
def xAdjFloat (rect : Rectangle) (gopherSizeCoeff gopherXCoeff : ℚ) : Float64 :=
  float64Mul (float64OfInt (size rect gopherSizeCoeff)) (fl64 gopherXCoeff)

/-- The line `xAdj := int(float64(size) * gopherXCoeff)`. -/
def xAdj (rect : Rectangle) (gopherSizeCoeff gopherXCoeff : ℚ) : Int :=
  goInt (xAdjFloat rect gopherSizeCoeff gopherXCoeff)

/-- The `float64` value `float64(size) * gopherYCoeff`. -/
def yAdjFloat (rect : Rectangle) (gopherSizeCoeff gopherYCoeff : ℚ) : Float64 :=
  float64Mul (float64OfInt (size rect gopherSizeCoeff)) (fl64 gopherYCoeff)

/-- The line `yAdj := int(float64(size) * gopherYCoeff)`. -/
def yAdj (rect : Rectangle) (gopherSizeCoeff gopherYCoeff : ℚ) : Int :=
  goInt (yAdjFloat rect gopherSizeCoeff gopherYCoeff)

/-- The line `pt := image.Pt(-rect.Min.X+xAdj, -rect.Min.Y+yAdj)`. -/
def pt (rect : Rectangle) (gopherSizeCoeff gopherXCoeff gopherYCoeff : ℚ) : Point :=
  Pt (-rect.Min.X + xAdj rect gopherSizeCoeff gopherXCoeff)
    (-rect.Min.Y + yAdj rect gopherSizeCoeff gopherYCoeff)

/-- The external resizer, as `run` calls it: `resize.Resize(width, 0, img, resize.Lanczos3)`
maps the requested width and the overlay to a new image.  A `Resizer` gives the image of a call
that returns; `resizeCall` below adds the calls that panic. -/
abbrev Resizer := Nat → Image → Image

/-- The line `newImage := resize.Resize(uint(size), 0, gopherImage, resize.Lanczos3)`. -/
def newImage (resize : Resizer) (gopherImage : Image) (rect : Rectangle)
    (gopherSizeCoeff : ℚ) : Image :=
  resize (goUint (size rect gopherSizeCoeff)) gopherImage

/-- One iteration of the loop over `rects` in `run`: compute the size, the adjustments and the
source point, resize the overlay and draw it over `dst`. -/
def compositeStep (resize : Resizer) (gopherImage : Image)
    (gopherSizeCoeff gopherXCoeff gopherYCoeff : ℚ) (dst : RGBAImage) (rect : Rectangle) :
    RGBAImage :=
  drawDraw dst dst.Rect (newImage resize gopherImage rect gopherSizeCoeff)
    (pt rect gopherSizeCoeff gopherXCoeff gopherYCoeff)

/-- The two lines before the loop: `dst := image.NewRGBA(photoImage.Bounds())` and
`draw.Draw(dst, dst.Bounds(), photoImage, image.Point{}, draw.Over)`. -/
def initialDst (photoImage : Image) : RGBAImage :=
  let dst := NewRGBA photoImage.Bounds
  drawDraw dst dst.Rect photoImage ⟨0, 0⟩

/-- The compositing part of `run`: the buffer initialised from the photo, then one
`compositeStep` per detected rectangle, in the order of the list. -/
def composite (resize : Resizer) (photoImage gopherImage : Image)
    (gopherSizeCoeff gopherXCoeff gopherYCoeff : ℚ) (rects : List Rectangle) : RGBAImage :=
  rects.foldl (compositeStep resize gopherImage gopherSizeCoeff gopherXCoeff gopherYCoeff)
    (initialDst photoImage)

/-- The placement region of a detected rectangle, as the spec names it: the bounds of the resized
overlay translated to `(rect.Min.X - xAdj, rect.Min.Y - yAdj)`. -/
def placementRegion (resize : Resizer) (gopherImage : Image)
    (gopherSizeCoeff gopherXCoeff gopherYCoeff : ℚ) (rect : Rectangle) : Rectangle :=
  (newImage resize gopherImage rect gopherSizeCoeff).Bounds.Add
    (Pt (rect.Min.X - xAdj rect gopherSizeCoeff gopherXCoeff)
      (rect.Min.Y - yAdj rect gopherSizeCoeff gopherYCoeff))

/-! ## The resizer's treatment of the requested width

`resize.Resize` belongs to the external package `github.com/nfnt/resize`.  With the height
argument `0`, as `run` passes it, the package documents that the missing dimension is derived
from the aspect ratio of the input, and it returns the input image itself in two cases: when
the input has no pixels, and when the requested size is the size of the input (its
"trivial case"), which includes the request `width = 0, height = 0`, where both dimensions
are derived from the input.  Everything else is resampling with the Lanczos3 kernel in
floating point, which is left as a parameter. -/

/-- The call `resize.Resize(width, 0, img, resize.Lanczos3)` when it returns, with the
resampling itself (`resample`, which receives the non-trivial requested width) as a
parameter: an input without pixels is returned unchanged; a requested width of `0` or of the
input's own width is the trivial case and returns the input; any other width is resampled. -/
def resizeResize (resample : Nat → Image → Image) : Resizer := fun width img =>
  if img.Bounds.Dx ≤ 0 ∨ img.Bounds.Dy ≤ 0 then img
  else if width = 0 ∨ (width : Int) = img.Bounds.Dx then img
  else resample width img

/-- Whether the call `resize.Resize(width, 0, img, resize.Lanczos3)` panics instead of
returning, as far as the width decides it: the package converts the requested width to `int`
for the rectangles of its buffers, and for an image with pixels a width of `2^63` or more,
which is negative as an `int`, ends in a panic.  (Running out of memory for a large positive
width is not modelled.) -/
def resizePanics (width : Nat) (img : Image) : Bool :=
  decide (0 < img.Bounds.Dx) && decide (0 < img.Bounds.Dy) && decide (2 ^ 63 ≤ width)

/-- The call `resize.Resize(width, 0, img, resize.Lanczos3)` with its panic: `none` when the
call panics, the returned image otherwise. -/
def resizeCall (resample : Nat → Image → Image) (width : Nat) (img : Image) : Option Image :=
  if resizePanics width img then none else some (resizeResize resample width img)

/-- One iteration of the loop over `rects` as it runs with the resizer of
`github.com/nfnt/resize`: `none` when the resizer panics, which ends the program, and the
buffer after the draw otherwise. -/
def compositeStepRun (resample : Nat → Image → Image) (gopherImage : Image)
    (gopherSizeCoeff gopherXCoeff gopherYCoeff : ℚ) (dst : RGBAImage) (rect : Rectangle) :
    Option RGBAImage :=
  match resizeCall resample (goUint (size rect gopherSizeCoeff)) gopherImage with
  | none => none
  | some newImage =>
    some (drawDraw dst dst.Rect newImage (pt rect gopherSizeCoeff gopherXCoeff gopherYCoeff))

/-- A nearest-neighbour resampler to the requested width, the height following the aspect
ratio as the package derives it, `uint(0.7 + height / scale)`, in exact arithmetic.  It
stands in for the Lanczos3 kernel where a concrete resizer is evaluated; the general theorems
hold for every resizer. -/
def resampleNearest (width : Nat) (img : Image) : Image :=
  let height : Int := (7 * img.Bounds.Dx + 10 * img.Bounds.Dy * width) / (10 * img.Bounds.Dx)
  { Bounds := ⟨⟨0, 0⟩, ⟨width, height⟩⟩
    At := fun x y =>
      img.At (img.Bounds.Min.X + x * img.Bounds.Dx / width)
        (img.Bounds.Min.Y + y * img.Bounds.Dy / height) }

/-! ## The world: open resources and the calls made to the outside -/

/-- A resource that has to be released by the code that acquired it. -/
inductive Resource where
  /-- The native cascade classifier made by `gocv.NewCascadeClassifier()`. -/
  | classifier
  /-- The native `gocv.Mat` made by `gocv.IMRead(path, ...)`. -/
  | mat (path : String)
  /-- The `*os.File` made by `os.Open(path)` or `os.Create(path)`. -/
  | file (path : String)
deriving DecidableEq, Repr

/-- A call to one of the external collaborators. -/
inductive Call where
  | flagUsage
  | newCascadeClassifier
  | classifierLoad (path : String)
  | classifierClose
  | imRead (path : String)
  | detectMultiScale
  | osOpen (path : String)
  | imageDecode (path : String)
  | osCreate (path : String)
  | jpegEncode (path : String)
  | fileClose (path : String)
deriving DecidableEq, Repr

/-- The state outside the program's values: the resources currently held and the calls made
so far, oldest first. -/
structure World where
  held : List Resource
  calls : List Call
deriving DecidableEq, Repr

/-- The world at program start: nothing held, nothing called. -/
def World.start : World := ⟨[], []⟩

/-- Record a call. -/
def World.call (w : World) (c : Call) : World := { w with calls := w.calls ++ [c] }

/-- Acquire a resource. -/
def World.acquire (w : World) (r : Resource) : World := { w with held := r :: w.held }

/-- Release a resource. -/
def World.release (w : World) (r : Resource) : World := { w with held := w.held.erase r }

/-- The outcomes of the external calls: whether the classifier file loads, whether `IMRead`
yields a non-empty matrix, what the detector finds, and the result of each fallible call of
`os` and of the codecs (`none` or `ok` for success, the error text otherwise). -/
structure Env where
  classifierLoad : String → Bool
  imReadEmpty : String → Bool
  detectMultiScale : String → String → ℚ → Int → Point → Point → List Rectangle
  osOpen : String → Option String
  imageDecode : String → Except String Image
  osCreate : String → Option String
  jpegEncode : String → RGBAImage → Option String
  resize : Resizer

/-! ## `readImage`, `writeOutputJpeg`, `detectFace` -/

/-- The function `readImage`: open the file, decode it, return the image.  The opened file is
not closed on any path. -/
def readImage (env : Env) (fpath : String) (w : World) : Except String Image × World :=
  let w := w.call (.osOpen fpath)
  match env.osOpen fpath with
  | some err => (.error ("open file: " ++ err), w)
  | none =>
    let w := w.acquire (.file fpath)
    let w := w.call (.imageDecode fpath)
    match env.imageDecode fpath with
    | .error err => (.error ("decode image: " ++ err), w)
    | .ok img => (.ok img, w)

/-- The function `writeOutputJpeg`: create the file, defer its `Close`, encode the image. -/
def writeOutputJpeg (env : Env) (fpath : String) (img : RGBAImage) (w : World) :
    Option String × World :=
  let w := w.call (.osCreate fpath)
  match env.osCreate fpath with
  | some err => (some ("create file: " ++ err), w)
  | none =>
    let w := w.acquire (.file fpath)
    let w := w.call (.jpegEncode fpath)
    match env.jpegEncode fpath img with
    | some err =>
      (some ("encode jpeg image: " ++ err), (w.call (.fileClose fpath)).release (.file fpath))
    | none => (none, (w.call (.fileClose fpath)).release (.file fpath))

/-- The function `detectFace`: make the classifier and defer its `Close`, load the classifier
file, read the photo into a matrix, detect.  The matrix made by `IMRead` is not closed on any
path. -/
def detectFace (env : Env) (classifierFilePath photoFilePath : String) (photoDetectScale : ℚ)
    (photoDetectMinNeighbours photoDetectMinSize photoDetectMaxSize : Int) (w : World) :
    Except String (List Rectangle) × World :=
  let w := (w.call .newCascadeClassifier).acquire .classifier
  let w := w.call (.classifierLoad classifierFilePath)
  if !env.classifierLoad classifierFilePath then
    (.error ("failed to read classifier file " ++ classifierFilePath),
      (w.call .classifierClose).release .classifier)
  else
    let w := (w.call (.imRead photoFilePath)).acquire (.mat photoFilePath)
    if env.imReadEmpty photoFilePath then
      (.error ("file " ++ photoFilePath ++ " is probably not an image"),
        (w.call .classifierClose).release .classifier)
    else
      let min := Pt photoDetectMinSize photoDetectMinSize
      let max := Pt photoDetectMaxSize photoDetectMaxSize
      let w := w.call .detectMultiScale
      (.ok (env.detectMultiScale classifierFilePath photoFilePath photoDetectScale
          photoDetectMinNeighbours min max),
        (w.call .classifierClose).release .classifier)

/-! ## `run` and `main` -/

/-- The function `run`: detect, read the photo, read the overlay, composite, write.  The
result is `none` for a nil error and the error text otherwise. -/
def run (env : Env) (classifierFilePath photoImagePath : String) (photoDetectScale : ℚ)
    (photoDetectMinNeighbours photoDetectMinSize photoDetectMaxSize : Int)
    (gopherImagePath : String) (gopherSizeCoeff gopherXCoeff gopherYCoeff : ℚ)
    (outputImagePath : String) (w : World) : Option String × World :=
  match detectFace env classifierFilePath photoImagePath photoDetectScale
      photoDetectMinNeighbours photoDetectMinSize photoDetectMaxSize w with
  | (.error err, w) => (some ("detect face: " ++ err), w)
  | (.ok rects, w) =>
    match readImage env photoImagePath w with
    | (.error err, w) => (some ("read photo image: " ++ err), w)
    | (.ok photoImage, w) =>
      match readImage env gopherImagePath w with
      | (.error err, w) => (some ("read gopher image: " ++ err), w)
      | (.ok gopherImage, w) =>
        let dst := composite env.resize photoImage gopherImage gopherSizeCoeff gopherXCoeff
          gopherYCoeff rects
        match writeOutputJpeg env outputImagePath dst w with
        | (some err, w) => (some ("write output file: " ++ err), w)
        | (none, w) => (none, w)

/-- The parsed command line: the eleven variables `flag.Parse` fills in `main`. -/
structure Flags where
  classifierFilePath : String
  photoImagePath : String
  photoDetectScale : ℚ
  photoDetectMinNeighbours : Int
  photoDetectMinSize : Int
  photoDetectMaxSize : Int
  gopherImagePath : String
  gopherSizeCoeff : ℚ
  gopherXCoeff : ℚ
  gopherYCoeff : ℚ
  outputImagePath : String

/-- How the process ends: normally, or through `log.Fatal` with a message. -/
inductive Exit where
  | success
  | fatal (msg : String)
deriving DecidableEq, Repr

/-- The function `main` after `flag.Parse()`: the three required-flag checks, each printing
the usage and ending the process through `log.Fatal`, then `run` and the report of its
error. -/
def main (env : Env) (f : Flags) (w : World) : Exit × World :=
  if f.classifierFilePath = "" then
    (.fatal "Flag -classifier value is required", w.call .flagUsage)
  else if f.photoImagePath = "" then
    (.fatal "Flag -photo value is required", w.call .flagUsage)
  else if f.gopherImagePath = "" then
    (.fatal "Flag -gopher value is required", w.call .flagUsage)
  else
    match run env f.classifierFilePath f.photoImagePath f.photoDetectScale
        f.photoDetectMinNeighbours f.photoDetectMinSize f.photoDetectMaxSize
        f.gopherImagePath f.gopherSizeCoeff f.gopherXCoeff f.gopherYCoeff
        f.outputImagePath w with
    | (some err, w) => (.fatal ("Error: " ++ err), w)
    | (none, w) => (.success, w)

/-- Two rectangles share no point: their intersection is empty. -/
def Rectangle.Disjoint (r s : Rectangle) : Bool := (r.Intersect s).Empty

/-- The placement regions of the rectangles of a list are pairwise disjoint. -/
def PlacementsDisjoint (resize : Resizer) (gopherImage : Image)
    (gopherSizeCoeff gopherXCoeff gopherYCoeff : ℚ) (rects : List Rectangle) : Prop :=
  rects.Pairwise fun a b =>
    (placementRegion resize gopherImage gopherSizeCoeff gopherXCoeff gopherYCoeff a).Disjoint
      (placementRegion resize gopherImage gopherSizeCoeff gopherXCoeff gopherYCoeff b) = true

/-! ## Concrete inputs for the evaluations -/

/-- Opaque red, as `RGBA()` returns it. -/
def red : Color := ⟨65535, 0, 0, 65535⟩

/-- Opaque blue. -/
def blue : Color := ⟨0, 0, 65535, 65535⟩

/-- Opaque white. -/
def white : Color := ⟨65535, 65535, 65535, 65535⟩

/-- A white photo, 4 pixels wide and 1 pixel high. -/
def photo4x1 : Image := ⟨⟨⟨0, 0⟩, ⟨4, 1⟩⟩, fun _ _ => white⟩

/-- An overlay of 2 by 1 pixels: red on the left, blue on the right. -/
def gopher2x1 : Image := ⟨⟨⟨0, 0⟩, ⟨2, 1⟩⟩, fun x _ => if x = 0 then red else blue⟩

/-- The resizer with the nearest-neighbour resampling. -/
def resizeNearest : Resizer := resizeResize resampleNearest

/-- A detected rectangle covering the pixels 0 and 1 of the photo. -/
def rectA : Rectangle := ⟨⟨0, 0⟩, ⟨2, 1⟩⟩

/-- A detected rectangle covering the pixels 1 and 2 of the photo: it overlaps `rectA`. -/
def rectB : Rectangle := ⟨⟨1, 0⟩, ⟨3, 1⟩⟩

/-- A detected rectangle covering the pixels 2 and 3 of the photo: it is disjoint from
`rectA`. -/
def rectC : Rectangle := ⟨⟨2, 0⟩, ⟨4, 1⟩⟩

/-- An environment in which every external call succeeds: the detector finds `rectA`, the
file `gopher.png` decodes to the 2 by 1 overlay and every other file to the 4 by 1 photo. -/
def envAllOk : Env where
  classifierLoad := fun _ => true
  imReadEmpty := fun _ => false
  detectMultiScale := fun _ _ _ _ _ _ => [rectA]
  osOpen := fun _ => none
  imageDecode := fun path => .ok (if path = "gopher.png" then gopher2x1 else photo4x1)
  osCreate := fun _ => none
  jpegEncode := fun _ _ => none
  resize := resizeNearest

/-- An environment like `envAllOk` in which `photo.jpg` opens but does not decode. -/
def envPhotoUndecodable : Env :=
  { envAllOk with
    imageDecode := fun path =>
      if path = "photo.jpg" then .error "image: unknown format" else .ok gopher2x1 }

/-- A command line with the three required flags and the defaults of the others. -/
def flagsDefault : Flags where
  classifierFilePath := "face.xml"
  photoImagePath := "photo.jpg"
  photoDetectScale := 11 / 10
  photoDetectMinNeighbours := 8
  photoDetectMinSize := 200
  photoDetectMaxSize := 800
  gopherImagePath := "gopher.png"
  gopherSizeCoeff := 3
  gopherXCoeff := 0
  gopherYCoeff := 0
  outputImagePath := "output.jpg"

/-! ## What the conversions compute, stated without them -/

/-- The rational `r` is a finite `float64` value: a significand of at most 53 bits times a
power of two with an exponent of at least `-1074`, of magnitude below `2^1024`. -/
def IsFloat64 (r : ℚ) : Prop :=
  |r| < 2 ^ 1024 ∧ ∃ n k : Int, |n| < 2 ^ 53 ∧ -1074 ≤ k ∧ r = (n : ℚ) * 2 ^ k

/-- The rational `p` is a `float64` value nearest to `q`: no `float64` value is nearer. -/
def IsNearestFloat64 (p q : ℚ) : Prop :=
  IsFloat64 p ∧ ∀ r, IsFloat64 r → |q - p| ≤ |q - r|


/-- The integer `n` is `q` with its fraction discarded: `n` has the magnitude of `q` rounded
down and does not have the opposite sign. -/
def IsTruncation (n : Int) (q : ℚ) : Prop :=
  |(n : ℚ)| ≤ |q| ∧ |q| < |(n : ℚ)| + 1 ∧ 0 ≤ (n : ℚ) * q

theorem truncate_of_nonneg {q : ℚ} (h : 0 ≤ q) : truncate q = ⌊q⌋ := by
  simp [truncate, h]

theorem truncate_of_neg {q : ℚ} (h : q < 0) : truncate q = ⌈q⌉ := by
  simp [truncate, not_le.mpr h]

theorem truncate_intCast (n : Int) : truncate (n : ℚ) = n := by
  unfold truncate
  split <;> simp

theorem truncate_zero : truncate 0 = 0 := by
  simpa using truncate_intCast 0

theorem truncate_isTruncation (q : ℚ) : IsTruncation (truncate q) q := by
  unfold IsTruncation
  rcases le_or_lt 0 q with h | h
  · rw [truncate_of_nonneg h]
    have h1 : ((⌊q⌋ : Int) : ℚ) ≤ q := Int.floor_le q
    have h2 : q < ((⌊q⌋ : Int) : ℚ) + 1 := Int.lt_floor_add_one q
    have h3 : (0 : ℚ) ≤ ((⌊q⌋ : Int) : ℚ) := by exact_mod_cast Int.floor_nonneg.mpr h
    rw [abs_of_nonneg h3, abs_of_nonneg h]
    exact ⟨h1, h2, mul_nonneg h3 h⟩
  · rw [truncate_of_neg h]
    have h1 : q ≤ ((⌈q⌉ : Int) : ℚ) := Int.le_ceil q
    have h2 : ((⌈q⌉ : Int) : ℚ) < q + 1 := Int.ceil_lt_add_one q
    have h3 : ((⌈q⌉ : Int) : ℚ) ≤ 0 := by
      have : ⌈q⌉ ≤ 0 := Int.ceil_le.mpr (by simpa using h.le)
      exact_mod_cast this
    rw [abs_of_nonpos h3, abs_of_nonpos h.le]
    refine ⟨by linarith, by linarith, mul_nonneg_of_nonpos_of_nonpos h3 h.le⟩

theorem abs_truncate_le (q : ℚ) : |((truncate q : Int) : ℚ)| ≤ |q| :=
  (truncate_isTruncation q).1

theorem truncate_eq_zero {q : ℚ} (h : |q| < 1) : truncate q = 0 := by
  have h1 := abs_truncate_le q
  have h2 : |((truncate q : Int) : ℚ)| < 1 := lt_of_le_of_lt h1 h
  have h3 : |truncate q| < 1 := by exact_mod_cast h2
  exact Int.abs_lt_one_iff.mp h3

theorem goInt_some {p : ℚ} (h : |p| < 2 ^ 63) : goInt (some p) = truncate p := by
  have h1 := abs_truncate_le p
  have h2 : |((truncate p : Int) : ℚ)| < 2 ^ 63 := lt_of_le_of_lt h1 h
  have h3 : |truncate p| < 2 ^ 63 := by exact_mod_cast h2
  rw [abs_lt] at h3
  unfold goInt
  simp only
  rw [if_pos ⟨h3.1.le, h3.2⟩]

theorem goInt_range (f : Float64) : -2 ^ 63 ≤ goInt f ∧ goInt f < 2 ^ 63 := by
  unfold goInt
  cases f with
  | none => simp
  | some q =>
    simp only
    split_ifs with h
    · exact h
    · simp

/-! ## Rounding to the nearest `float64` -/

theorem roundHalfEven_sub_le (x : ℚ) : |(roundHalfEven x : ℚ) - x| ≤ 1 / 2 := by
  have h1 : ((⌊x⌋ : Int) : ℚ) ≤ x := Int.floor_le x
  have h2 : x < ((⌊x⌋ : Int) : ℚ) + 1 := Int.lt_floor_add_one x
  unfold roundHalfEven
  rw [abs_le]
  split_ifs <;> push_cast <;> constructor <;> linarith

theorem roundHalfEven_eq_of_abs_lt {x : ℚ} {n : Int} (h : |x - n| < 1 / 2) :
    roundHalfEven x = n := by
  have h1 := roundHalfEven_sub_le x
  have h2 : |((roundHalfEven x : Int) : ℚ) - (n : ℚ)| < 1 := by
    calc |((roundHalfEven x : Int) : ℚ) - (n : ℚ)|
        = |(((roundHalfEven x : Int) : ℚ) - x) + (x - n)| := by ring_nf
      _ ≤ |((roundHalfEven x : Int) : ℚ) - x| + |x - n| := abs_add _ _
      _ < 1 := by linarith
  have h3 : |roundHalfEven x - n| < 1 := by exact_mod_cast h2
  have := Int.abs_lt_one_iff.mp h3
  omega

theorem roundHalfEven_intCast (n : Int) : roundHalfEven (n : ℚ) = n :=
  roundHalfEven_eq_of_abs_lt (by simp)

theorem log_two_eq {r : ℚ} {e : Int} (h1 : (2 : ℚ) ^ e ≤ r) (h2 : r < (2 : ℚ) ^ (e + 1)) :
    Int.log 2 r = e := by
  have hr : 0 < r := lt_of_lt_of_le (by positivity) h1
  have a : e ≤ Int.log 2 r := by
    rw [← Int.zpow_le_iff_le_log (by norm_num) hr]
    simpa using h1
  have b : Int.log 2 r < e + 1 := by
    rw [← Int.lt_zpow_iff_log_lt (by norm_num) hr]
    simpa using h2
  omega

theorem zpow_log_le {r : ℚ} (hr : 0 < r) : (2 : ℚ) ^ Int.log 2 r ≤ r := by
  have := Int.zpow_log_le_self (b := 2) (by norm_num) hr
  simpa using this

theorem lt_zpow_log_succ (r : ℚ) : r < (2 : ℚ) ^ (Int.log 2 r + 1) := by
  have := Int.lt_zpow_succ_log_self (b := 2) (by norm_num) r
  simpa using this


theorem two_zpow_le {a b : Int} (h : a ≤ b) : (2 : ℚ) ^ a ≤ (2 : ℚ) ^ b :=
  zpow_le_zpow_right₀ (by norm_num) h

theorem two_zpow_pos (a : Int) : (0 : ℚ) < (2 : ℚ) ^ a := by positivity

theorem ulpExp_of_bounds {q : ℚ} {e : Int} (h1 : (2 : ℚ) ^ e ≤ |q|)
    (h2 : |q| < (2 : ℚ) ^ (e + 1)) (he : -1022 ≤ e) : ulpExp q = e - 52 := by
  unfold ulpExp
  rw [log_two_eq h1 h2, max_eq_left he]

theorem ulpExp_of_small {q : ℚ} (h0 : q ≠ 0) (h : |q| < (2 : ℚ) ^ (-1022 : Int)) :
    ulpExp q = -1074 := by
  unfold ulpExp
  have hpos : 0 < |q| := abs_pos.mpr h0
  have hl : Int.log 2 |q| < -1022 := by
    rw [← Int.lt_zpow_iff_log_lt (by norm_num) hpos]
    simpa using h
  rw [max_eq_right hl.le]
  norm_num

theorem roundNearest_zero : roundNearest 0 = 0 := by
  unfold roundNearest
  rw [zero_div]
  have : roundHalfEven 0 = 0 := by simpa using roundHalfEven_intCast 0
  rw [this]
  simp

theorem roundNearest_sub_le (q : ℚ) :
    |roundNearest q - q| ≤ (2 : ℚ) ^ ulpExp q / 2 := by
  unfold roundNearest
  have hu := two_zpow_pos (ulpExp q)
  have h := roundHalfEven_sub_le (q / 2 ^ ulpExp q)
  have e : (roundHalfEven (q / 2 ^ ulpExp q) : ℚ) * 2 ^ ulpExp q - q
      = ((roundHalfEven (q / 2 ^ ulpExp q) : ℚ) - q / 2 ^ ulpExp q) * 2 ^ ulpExp q := by
    field_simp
  rw [e, abs_mul, abs_of_pos hu]
  calc |(roundHalfEven (q / 2 ^ ulpExp q) : ℚ) - q / 2 ^ ulpExp q| * 2 ^ ulpExp q
      ≤ 1 / 2 * 2 ^ ulpExp q := mul_le_mul_of_nonneg_right h hu.le
    _ = 2 ^ ulpExp q / 2 := by ring

/-- A number with a 53-bit significand and an exponent of at least `-1074` rounds to
itself. -/
theorem roundNearest_of_float {q : ℚ} (n k : Int) (hq : q = (n : ℚ) * 2 ^ k)
    (hn : |n| < 2 ^ 53) (hk : -1074 ≤ k) : roundNearest q = q := by
  by_cases h0 : q = 0
  · rw [h0, roundNearest_zero]
  · have hpos : 0 < |q| := abs_pos.mpr h0
    have hnq : |(n : ℚ)| < 2 ^ 53 := by exact_mod_cast hn
    have hlt : |q| < (2 : ℚ) ^ (53 + k) := by
      rw [hq, abs_mul, abs_of_pos (two_zpow_pos k), zpow_add₀ (by norm_num)]
      have : (2 : ℚ) ^ (53 : Int) = 2 ^ 53 := by norm_num
      rw [this]
      exact mul_lt_mul_of_pos_right hnq (two_zpow_pos k)
    have hl : Int.log 2 |q| < 53 + k := by
      rw [← Int.lt_zpow_iff_log_lt (by norm_num) hpos]
      simpa using hlt
    have hu : ulpExp q ≤ k := by
      unfold ulpExp
      have : max (Int.log 2 |q|) (-1022) ≤ k + 52 := max_le (by omega) (by omega)
      omega
    obtain ⟨d, hd⟩ : ∃ d : ℕ, k = ulpExp q + d := ⟨(k - ulpExp q).toNat, by omega⟩
    have hdiv : ∀ u : Int, k = u + d → q / 2 ^ u = ((n * 2 ^ d : Int) : ℚ) := by
      intro u hku
      rw [hq, hku, zpow_add₀ (by norm_num), zpow_natCast]
      have hu0 : (2 : ℚ) ^ u ≠ 0 := (two_zpow_pos u).ne'
      field_simp
      ring
    unfold roundNearest
    rw [hdiv _ hd, roundHalfEven_intCast, ← hdiv _ hd]
    have hu0 : (2 : ℚ) ^ ulpExp q ≠ 0 := (two_zpow_pos _).ne'
    field_simp

theorem roundNearest_two_mul {q : ℚ} (h : (2 : ℚ) ^ (-1022 : Int) ≤ |q|) :
    roundNearest (2 * q) = 2 * roundNearest q := by
  have hpos : 0 < |q| := lt_of_lt_of_le (two_zpow_pos _) h
  have hL : -1022 ≤ Int.log 2 |q| := by
    rw [← Int.zpow_le_iff_le_log (by norm_num) hpos]
    simpa using h
  have h1 := zpow_log_le hpos
  have h2 := lt_zpow_log_succ |q|
  have e1 : ulpExp q = Int.log 2 |q| - 52 := ulpExp_of_bounds h1 h2 hL
  have e2 : ulpExp (2 * q) = (Int.log 2 |q| + 1) - 52 := by
    apply ulpExp_of_bounds
    · rw [abs_mul, abs_of_pos (by norm_num : (0 : ℚ) < 2), zpow_add_one₀ (by norm_num)]
      linarith
    · rw [abs_mul, abs_of_pos (by norm_num : (0 : ℚ) < 2), zpow_add_one₀ (by norm_num)]
      linarith
    · omega
  have e3 : ulpExp (2 * q) = ulpExp q + 1 := by rw [e1, e2]; ring
  unfold roundNearest
  rw [e3, zpow_add_one₀ (by norm_num)]
  have hd : 2 * q / (2 ^ ulpExp q * 2) = q / 2 ^ ulpExp q := by
    field_simp
    ring
  rw [hd]
  ring

theorem abs_roundNearest_lt_one {q : ℚ} (h : |q| < (2 : ℚ) ^ (-1021 : Int)) :
    |roundNearest q| < 1 := by
  by_cases h0 : q = 0
  · rw [h0, roundNearest_zero]; simp
  · have hpos : 0 < |q| := abs_pos.mpr h0
    have hl : Int.log 2 |q| < -1021 := by
      rw [← Int.lt_zpow_iff_log_lt (by norm_num) hpos]
      simpa using h
    have hu : ulpExp q = -1074 := by
      unfold ulpExp
      have : max (Int.log 2 |q|) (-1022) = -1022 := max_eq_right (by omega)
      rw [this]
      norm_num
    have hb := roundNearest_sub_le q
    rw [hu] at hb
    have s1 : (2 : ℚ) ^ (-1021 : Int) ≤ 2 ^ (-2 : Int) := two_zpow_le (by norm_num)
    have s2 : (2 : ℚ) ^ (-1074 : Int) ≤ 2 ^ (-2 : Int) := two_zpow_le (by norm_num)
    have s3 : (2 : ℚ) ^ (-2 : Int) = 1 / 4 := by norm_num
    have hA : |q| < 1 / 4 := lt_of_lt_of_le h (s1.trans s3.le)
    have hB : |roundNearest q - q| ≤ 1 / 8 := by
      have : (2 : ℚ) ^ (-1074 : Int) / 2 ≤ 1 / 8 := by
        rw [s3] at s2
        linarith
      exact hb.trans this
    have := abs_sub_abs_le_abs_sub (roundNearest q) q
    linarith

theorem fl64_of_abs_le {q : ℚ} (h : |q| ≤ 2 ^ 63) : fl64 q = some (roundNearest q) := by
  unfold fl64
  rw [if_pos]
  by_cases h0 : q = 0
  · rw [h0, roundNearest_zero]; simp
  · have hpos : 0 < |q| := abs_pos.mpr h0
    have hl : Int.log 2 |q| < 64 := by
      rw [← Int.lt_zpow_iff_log_lt (by norm_num) hpos]
      have : ((2 : ℕ) : ℚ) ^ (64 : Int) = 2 ^ 64 := by norm_num
      rw [this]
      linarith
    have hu : ulpExp q ≤ 11 := by
      unfold ulpExp
      have : max (Int.log 2 |q|) (-1022) ≤ 63 := max_le (by omega) (by norm_num)
      omega
    have hb := roundNearest_sub_le q
    have s1 : (2 : ℚ) ^ ulpExp q ≤ 2 ^ (11 : Int) := two_zpow_le hu
    have s2 : (2 : ℚ) ^ (11 : Int) = 2048 := by norm_num
    have := abs_sub_abs_le_abs_sub (roundNearest q) q
    have big : (2 : ℚ) ^ 63 + 1024 < 2 ^ 1024 := by norm_num
    linarith

theorem fl64_of_float {q : ℚ} (n k : Int) (hq : q = (n : ℚ) * 2 ^ k)
    (hn : |n| < 2 ^ 53) (hk : -1074 ≤ k) (hlt : |q| < 2 ^ 1024) : fl64 q = some q := by
  unfold fl64
  rw [roundNearest_of_float n k hq hn hk, if_pos hlt]

theorem fl64_intCast {n : Int} (hn : |n| < 2 ^ 53) : fl64 (n : ℚ) = some (n : ℚ) := by
  apply fl64_of_float n 0 (by simp) hn (by norm_num)
  have : |(n : ℚ)| < 2 ^ 53 := by exact_mod_cast hn
  have big : (2 : ℚ) ^ 53 < 2 ^ 1024 := by norm_num
  linarith


theorem fl64_eq_some {q p : ℚ} (h : fl64 q = some p) :
    p = roundNearest q ∧ |roundNearest q| < 2 ^ 1024 := by
  unfold fl64 at h
  split_ifs at h with h1
  exact ⟨(Option.some.inj h).symm, h1⟩

theorem fl64_zero : fl64 0 = some 0 := by
  have := fl64_intCast (n := 0) (by norm_num)
  simpa using this

theorem fl64_sub_le {q p : ℚ} (h : fl64 q = some p) : |p - q| ≤ (2 : ℚ) ^ ulpExp q / 2 := by
  rw [(fl64_eq_some h).1]
  exact roundNearest_sub_le q

/-- A rounding evaluated: when `q` lies in the binade of `2^e` and `n` is within less than a
half of `q` measured in units of the last place, `q` rounds to `n` units. -/
theorem roundNearest_eq {q : ℚ} (e n : Int) (h1 : (2 : ℚ) ^ e ≤ |q|)
    (h2 : |q| < (2 : ℚ) ^ (e + 1)) (he : -1022 ≤ e)
    (hn : |q / 2 ^ (e - 52) - (n : ℚ)| < 1 / 2) :
    roundNearest q = (n : ℚ) * 2 ^ (e - 52) := by
  unfold roundNearest
  rw [ulpExp_of_bounds h1 h2 he, roundHalfEven_eq_of_abs_lt hn]

/-- The rounded quotient is nearest among all integers. -/
theorem roundHalfEven_nearest (x : ℚ) (j : Int) :
    |x - (roundHalfEven x : ℚ)| ≤ |x - (j : ℚ)| := by
  have h := roundHalfEven_sub_le x
  rw [abs_sub_comm] at h
  by_cases hj : j = roundHalfEven x
  · rw [hj]
  · have h1 : (1 : ℚ) ≤ |((roundHalfEven x : Int) : ℚ) - (j : ℚ)| := by
      have : (1 : Int) ≤ |roundHalfEven x - j| := by
        have : roundHalfEven x - j ≠ 0 := fun h0 => hj (by omega)
        exact Int.one_le_abs this
      exact_mod_cast this
    have h2 : |((roundHalfEven x : Int) : ℚ) - (j : ℚ)|
        ≤ |x - (roundHalfEven x : ℚ)| + |x - (j : ℚ)| := by
      calc |((roundHalfEven x : Int) : ℚ) - (j : ℚ)|
          = |(x - (j : ℚ)) - (x - (roundHalfEven x : ℚ))| := by ring_nf
        _ ≤ |x - (j : ℚ)| + |x - (roundHalfEven x : ℚ)| := abs_sub _ _
        _ = |x - (roundHalfEven x : ℚ)| + |x - (j : ℚ)| := add_comm _ _
    linarith

/-- The rounding is nearest among all multiples of the unit in the last place. -/
theorem roundNearest_nearest_multiple (q : ℚ) (j : Int) :
    |q - roundNearest q| ≤ |q - (j : ℚ) * 2 ^ ulpExp q| := by
  have hu := two_zpow_pos (ulpExp q)
  have h := roundHalfEven_nearest (q / 2 ^ ulpExp q) j
  have e1 : q - roundNearest q
      = (q / 2 ^ ulpExp q - (roundHalfEven (q / 2 ^ ulpExp q) : ℚ)) * 2 ^ ulpExp q := by
    unfold roundNearest
    field_simp
    ring
  have e2 : q - (j : ℚ) * 2 ^ ulpExp q = (q / 2 ^ ulpExp q - (j : ℚ)) * 2 ^ ulpExp q := by
    field_simp
    ring
  rw [e1, e2, abs_mul, abs_mul, abs_of_pos hu]
  exact mul_le_mul_of_nonneg_right h hu.le

theorem abs_roundHalfEven_le {x : ℚ} {b : Int} (h : |x| ≤ (b : ℚ)) :
    |roundHalfEven x| ≤ b := by
  have h1 := roundHalfEven_sub_le x
  have h2 : |((roundHalfEven x : Int) : ℚ)| ≤ (b : ℚ) + 1 / 2 := by
    calc |((roundHalfEven x : Int) : ℚ)| = |(((roundHalfEven x : Int) : ℚ) - x) + x| := by ring_nf
      _ ≤ |((roundHalfEven x : Int) : ℚ) - x| + |x| := abs_add _ _
      _ ≤ (b : ℚ) + 1 / 2 := by linarith
  have h3 : |((roundHalfEven x : Int) : ℚ)| < (b : ℚ) + 1 := by linarith
  have h4 : |roundHalfEven x| < b + 1 := by exact_mod_cast h3
  omega

theorem abs_div_ulp_le (q : ℚ) : |q / 2 ^ ulpExp q| ≤ ((2 ^ 53 : Int) : ℚ) := by
  have hu := two_zpow_pos (ulpExp q)
  rw [abs_div, abs_of_pos hu, div_le_iff₀ hu]
  by_cases h0 : q = 0
  · rw [h0, abs_zero]; positivity
  · have hpos : 0 < |q| := abs_pos.mpr h0
    have h2 := lt_zpow_log_succ |q|
    have hle : Int.log 2 |q| + 1 ≤ 53 + ulpExp q := by
      unfold ulpExp
      have := le_max_left (Int.log 2 |q|) (-1022)
      omega
    have h3 : (2 : ℚ) ^ (Int.log 2 |q| + 1) ≤ 2 ^ (53 + ulpExp q) := two_zpow_le hle
    have h4 : (2 : ℚ) ^ (53 + ulpExp q) = ((2 ^ 53 : Int) : ℚ) * 2 ^ ulpExp q := by
      rw [zpow_add₀ (by norm_num)]
      norm_num
    linarith

theorem roundNearest_isFloat64 {q : ℚ} (h : |roundNearest q| < 2 ^ 1024) :
    IsFloat64 (roundNearest q) := by
  refine ⟨h, ?_⟩
  have hn : |roundHalfEven (q / 2 ^ ulpExp q)| ≤ 2 ^ 53 :=
    abs_roundHalfEven_le (abs_div_ulp_le q)
  have hk : -1074 ≤ ulpExp q := by
    unfold ulpExp
    have := le_max_right (Int.log 2 |q|) (-1022)
    omega
  rcases hn.eq_or_lt with heq | hlt
  · -- the significand carried: `±2^53` units are `±2^52` units of the next binade
    rcases abs_eq (by norm_num : (0 : Int) ≤ 2 ^ 53)|>.mp heq with hp | hm
    · refine ⟨2 ^ 52, ulpExp q + 1, by norm_num, by omega, ?_⟩
      unfold roundNearest
      rw [hp, zpow_add_one₀ (by norm_num)]
      push_cast
      ring
    · refine ⟨-2 ^ 52, ulpExp q + 1, by norm_num, by omega, ?_⟩
      unfold roundNearest
      rw [hm, zpow_add_one₀ (by norm_num)]
      push_cast
      ring
  · exact ⟨_, ulpExp q, hlt, hk, rfl⟩

/-- No number with a 53-bit significand and an exponent of at least `-1074` is nearer to `q`
than the rounding of `q`. -/
theorem roundNearest_nearest (q r : ℚ) (n k : Int) (hn : |n| < 2 ^ 53) (hk : -1074 ≤ k)
    (hr : r = (n : ℚ) * 2 ^ k) : |q - roundNearest q| ≤ |q - r| := by
  by_cases hku : ulpExp q ≤ k
  · -- `r` is a multiple of the unit in the last place
    obtain ⟨d, hd⟩ : ∃ d : ℕ, k = ulpExp q + d := ⟨(k - ulpExp q).toNat, by omega⟩
    have : r = ((n * 2 ^ d : Int) : ℚ) * 2 ^ ulpExp q := by
      rw [hr, hd, zpow_add₀ (by norm_num), zpow_natCast]
      push_cast
      ring
    rw [this]
    exact roundNearest_nearest_multiple q _
  · push_neg at hku
    by_cases h0 : q = 0
    · rw [h0, roundNearest_zero]
      simp
    · have hpos : 0 < |q| := abs_pos.mpr h0
      -- the binade of `q` is normal, and `r` lies below it
      have hL : -1022 < Int.log 2 |q| := by
        by_contra hc
        push_neg at hc
        have : ulpExp q = -1074 := by
          unfold ulpExp
          rw [max_eq_right hc]
          norm_num
        omega
      have hue : ulpExp q = Int.log 2 |q| - 52 := by
        unfold ulpExp
        rw [max_eq_left hL.le]
      have hnq : |(n : ℚ)| < 2 ^ 53 := by exact_mod_cast hn
      have hrlt : |r| < (2 : ℚ) ^ Int.log 2 |q| := by
        rw [hr, abs_mul, abs_of_pos (two_zpow_pos k)]
        have h1 : |(n : ℚ)| * 2 ^ k < 2 ^ 53 * 2 ^ k :=
          mul_lt_mul_of_pos_right hnq (two_zpow_pos k)
        have h2 : (2 : ℚ) ^ 53 * 2 ^ k = 2 ^ (53 + k) := by
          rw [zpow_add₀ (by norm_num)]
          norm_num
        have h3 : (2 : ℚ) ^ (53 + k) ≤ 2 ^ Int.log 2 |q| := two_zpow_le (by omega)
        linarith
      have hql := zpow_log_le hpos
      have hpow : (2 : ℚ) ^ Int.log 2 |q| = ((2 ^ 52 : Int) : ℚ) * 2 ^ ulpExp q := by
        rw [hue]
        have : Int.log 2 |q| = 52 + (Int.log 2 |q| - 52) := by ring
        conv_lhs => rw [this]
        rw [zpow_add₀ (by norm_num)]
        norm_num
      have hrq : |q| - |r| ≤ |q - r| := abs_sub_abs_le_abs_sub q r
      rcases lt_or_gt_of_ne h0 with hneg | hposq
      · have hb := roundNearest_nearest_multiple q (-(2 ^ 52))
        have e : q - ((-(2 ^ 52) : Int) : ℚ) * 2 ^ ulpExp q = q + 2 ^ Int.log 2 |q| := by
          rw [hpow]
          push_cast
          ring
        rw [e] at hb
        rw [abs_of_neg hneg] at hql hrq hrlt
        have : |q + 2 ^ Int.log 2 (-q)| = -q - 2 ^ Int.log 2 (-q) := by
          rw [abs_of_nonpos (by linarith)]
          ring
        rw [abs_of_neg hneg] at hb
        rw [this] at hb
        linarith
      · have hb := roundNearest_nearest_multiple q (2 ^ 52)
        have e : q - ((2 ^ 52 : Int) : ℚ) * 2 ^ ulpExp q = q - 2 ^ Int.log 2 |q| := by
          rw [hpow]
        rw [e] at hb
        rw [abs_of_pos hposq] at hql hrq hrlt
        rw [abs_of_pos hposq] at hb
        have : |q - 2 ^ Int.log 2 q| = q - 2 ^ Int.log 2 q := abs_of_nonneg (by linarith)
        rw [this] at hb
        linarith

theorem fl64_isNearest {q p : ℚ} (h : fl64 q = some p) : IsNearestFloat64 p q := by
  obtain ⟨hp, hlt⟩ := fl64_eq_some h
  rw [hp]
  refine ⟨roundNearest_isFloat64 hlt, ?_⟩
  rintro r ⟨-, n, k, hn, hk, hr⟩
  exact roundNearest_nearest q r n k hn hk hr

/-- A `float64` value rounds to itself. -/
theorem fl64_of_isFloat64 {q : ℚ} (h : IsFloat64 q) : fl64 q = some q := by
  obtain ⟨hlt, n, k, hn, hk, hq⟩ := h
  exact fl64_of_float n k hq hn hk hlt

/-- Truncation determines the integer: `truncate q` is the only truncation of `q`. -/
theorem IsTruncation.eq_truncate {n : Int} {q : ℚ} (h : IsTruncation n q) :
    n = truncate q := by
  obtain ⟨h1, h2, h3⟩ := h
  rcases le_or_lt 0 q with hq | hq
  · rw [truncate_of_nonneg hq]
    have hn : (0 : ℚ) ≤ (n : ℚ) := by
      by_contra hneg
      push_neg at hneg
      rcases hq.eq_or_lt with h0 | hpos
      · rw [← h0, abs_zero] at h1
        have := abs_nonneg (n : ℚ)
        have hz : (n : ℚ) = 0 := abs_eq_zero.mp (le_antisymm h1 this)
        linarith
      · have := mul_neg_of_neg_of_pos hneg hpos
        linarith
    rw [abs_of_nonneg hn, abs_of_nonneg hq] at h1 h2
    symm
    rw [Int.floor_eq_iff]
    exact ⟨h1, h2⟩
  · rw [truncate_of_neg hq]
    have hn : (n : ℚ) ≤ 0 := by
      by_contra hpos
      push_neg at hpos
      have := mul_neg_of_pos_of_neg hpos hq
      linarith
    rw [abs_of_nonpos hn, abs_of_nonpos hq.le] at h1 h2
    symm
    rw [Int.ceil_eq_iff]
    constructor <;> linarith

theorem truncate_two_mul (q : ℚ) : |truncate (2 * q) - 2 * truncate q| ≤ 1 := by
  rcases le_or_lt 0 q with h | h
  · have h2 : (0 : ℚ) ≤ 2 * q := by linarith
    rw [truncate_of_nonneg h, truncate_of_nonneg h2]
    have a1 : ((⌊q⌋ : Int) : ℚ) ≤ q := Int.floor_le q
    have a2 : q < ((⌊q⌋ : Int) : ℚ) + 1 := Int.lt_floor_add_one q
    have b1 : 2 * ⌊q⌋ ≤ ⌊2 * q⌋ := by
      rw [Int.le_floor]; push_cast; linarith
    have b2 : ⌊2 * q⌋ < 2 * ⌊q⌋ + 2 := by
      rw [Int.floor_lt]; push_cast; linarith
    rw [abs_le]
    constructor <;> omega
  · have h2 : 2 * q < 0 := by linarith
    rw [truncate_of_neg h, truncate_of_neg h2]
    have a1 : q ≤ ((⌈q⌉ : Int) : ℚ) := Int.le_ceil q
    have a2 : ((⌈q⌉ : Int) : ℚ) < q + 1 := Int.ceil_lt_add_one q
    have b1 : ⌈2 * q⌉ ≤ 2 * ⌈q⌉ := by
      rw [Int.ceil_le]; push_cast; linarith
    have b2 : 2 * ⌈q⌉ - 2 < ⌈2 * q⌉ := by
      rw [Int.lt_ceil]; push_cast; linarith
    rw [abs_le]
    constructor <;> omega

/-! ## The sizes `run` computes -/

theorem size_range (rect : Rectangle) (c : ℚ) :
    -2 ^ 63 ≤ size rect c ∧ size rect c < 2 ^ 63 :=
  goInt_range _

theorem float64OfInt_size (rect : Rectangle) (c : ℚ) :
    float64OfInt (size rect c) = some (roundNearest (size rect c : ℚ)) := by
  unfold float64OfInt
  apply fl64_of_abs_le
  have h := size_range rect c
  have h1 : |size rect c| ≤ 2 ^ 63 := by
    rw [abs_le]
    constructor <;> omega
  exact_mod_cast h1

theorem goInt_some_zero : goInt (some 0) = 0 := by
  rw [goInt_some (by norm_num), truncate_zero]

theorem xAdj_coeff_zero (rect : Rectangle) (c : ℚ) : xAdj rect c 0 = 0 := by
  unfold xAdj xAdjFloat
  rw [float64OfInt_size, fl64_zero]
  unfold float64Mul
  simp only
  rw [mul_zero, fl64_zero, goInt_some_zero]

theorem yAdj_coeff_zero (rect : Rectangle) (c : ℚ) : yAdj rect c 0 = 0 := by
  unfold yAdj yAdjFloat
  rw [float64OfInt_size, fl64_zero]
  unfold float64Mul
  simp only
  rw [mul_zero, fl64_zero, goInt_some_zero]

/-- The size for an integer coefficient and a width whose product stays below `2^53`: no
rounding takes place. -/
theorem size_coeff_intCast (rect : Rectangle) (k : Int)
    (hw : |rect.Max.X - rect.Min.X| < 2 ^ 53) (hk : |k| < 2 ^ 53)
    (hp : |(rect.Max.X - rect.Min.X) * k| < 2 ^ 53) :
    sizeFloat rect (k : ℚ) = some (((rect.Max.X - rect.Min.X) * k : Int) : ℚ) ∧
    size rect (k : ℚ) = (rect.Max.X - rect.Min.X) * k := by
  have hf : sizeFloat rect (k : ℚ) = some (((rect.Max.X - rect.Min.X) * k : Int) : ℚ) := by
    unfold sizeFloat float64OfInt
    rw [fl64_intCast hw, fl64_intCast hk]
    unfold float64Mul
    simp only
    rw [← Int.cast_mul, fl64_intCast hp]
  refine ⟨hf, ?_⟩
  unfold size
  rw [hf, goInt_some, truncate_intCast]
  have : |(((rect.Max.X - rect.Min.X) * k : Int) : ℚ)| < 2 ^ 53 := by exact_mod_cast hp
  have big : (2 : ℚ) ^ 53 < 2 ^ 63 := by norm_num
  linarith

theorem size_coeff_one (rect : Rectangle) (hw : |rect.Max.X - rect.Min.X| < 2 ^ 53) :
    size rect 1 = rect.Max.X - rect.Min.X := by
  have h := (size_coeff_intCast rect 1 hw (by norm_num) (by simpa using hw)).2
  simpa using h

theorem size_coeff_neg_one (rect : Rectangle) (hw : |rect.Max.X - rect.Min.X| < 2 ^ 53) :
    size rect (-1) = -(rect.Max.X - rect.Min.X) := by
  have h := (size_coeff_intCast rect (-1) hw (by norm_num)
    (by rw [mul_neg_one, abs_neg]; exact hw)).2
  simpa using h

theorem size_coeff_zero (rect : Rectangle) (hw : |rect.Max.X - rect.Min.X| < 2 ^ 53) :
    size rect 0 = 0 := by
  have h := (size_coeff_intCast rect 0 hw (by norm_num) (by simp)).2
  simpa using h

theorem size_rectA : size rectA 1 = 2 := by
  rw [size_coeff_one rectA (by decide)]
  decide

theorem size_rectB : size rectB 1 = 2 := by
  rw [size_coeff_one rectB (by decide)]
  decide

theorem size_rectC : size rectC 1 = 2 := by
  rw [size_coeff_one rectC (by decide)]
  decide

theorem float64Mul_eq_some {a b : Float64} {p : ℚ} (h : float64Mul a b = some p) :
    ∃ x y, a = some x ∧ b = some y ∧ fl64 (x * y) = some p := by
  cases a with
  | none => simp [float64Mul] at h
  | some x =>
    cases b with
    | none => simp [float64Mul] at h
    | some y => exact ⟨x, y, rfl, rfl, h⟩

/-- What `int(a * b)` is for two `float64` values whose product is finite and inside the
`int` range: the truncation of the `float64` product, which is a `float64` nearest to the
exact product. -/
theorem goInt_float64Mul {a b : Float64} {p : ℚ} (h : float64Mul a b = some p)
    (hr : |p| < 2 ^ 63) :
    IsTruncation (goInt (float64Mul a b)) p ∧
    ∃ x y, a = some x ∧ b = some y ∧ IsNearestFloat64 p (x * y) := by
  constructor
  · rw [h, goInt_some hr]
    exact truncate_isTruncation p
  · obtain ⟨x, y, hx, hy, hxy⟩ := float64Mul_eq_some h
    exact ⟨x, y, hx, hy, fl64_isNearest hxy⟩

/-- The size when the width and the coefficient are `float64` values and `p` is their
`float64` product. -/
theorem size_of_product (rect : Rectangle) (c p : ℚ)
    (hw : |rect.Max.X - rect.Min.X| < 2 ^ 53) (hc : fl64 c = some c)
    (hp : fl64 (((rect.Max.X - rect.Min.X : Int) : ℚ) * c) = some p) (hr : |p| < 2 ^ 63) :
    sizeFloat rect c = some p ∧ size rect c = truncate p := by
  have hf : sizeFloat rect c = some p := by
    unfold sizeFloat float64OfInt
    rw [fl64_intCast hw, hc]
    exact hp
  refine ⟨hf, ?_⟩
  unfold size
  rw [hf, goInt_some hr]

/-! ## C1: size and offsets -/

/-- C1, as amended: the size `run` computes is the `float64` product
`float64(rect.Max.X - rect.Min.X) * sizeCoefficient` with its fraction discarded (truncation
toward zero, not rounding to nearest), and the two offsets are the `float64` products
`float64(size) * xCoefficient` and `float64(size) * yCoefficient` with their fractions
discarded, whenever the product is finite and of magnitude below `2^63`.  Each `float64`
product is a `float64` value nearest to the exact product of its operands, and the operands
are the `float64` values nearest to the integer and to the coefficient. -/
theorem size_xAdj_yAdj_truncate (rect : Rectangle) (sizeCoeff xCoeff yCoeff : ℚ) :
    (∀ p, sizeFloat rect sizeCoeff = some p → |p| < 2 ^ 63 →
      IsTruncation (size rect sizeCoeff) p ∧
      ∃ w c, float64OfInt (rect.Max.X - rect.Min.X) = some w ∧ fl64 sizeCoeff = some c ∧
        IsNearestFloat64 w ((rect.Max.X - rect.Min.X : Int) : ℚ) ∧
        IsNearestFloat64 c sizeCoeff ∧ IsNearestFloat64 p (w * c)) ∧
    (∀ p, xAdjFloat rect sizeCoeff xCoeff = some p → |p| < 2 ^ 63 →
      IsTruncation (xAdj rect sizeCoeff xCoeff) p ∧
      ∃ s c, float64OfInt (size rect sizeCoeff) = some s ∧ fl64 xCoeff = some c ∧
        IsNearestFloat64 s ((size rect sizeCoeff : Int) : ℚ) ∧
        IsNearestFloat64 c xCoeff ∧ IsNearestFloat64 p (s * c)) ∧
    (∀ p, yAdjFloat rect sizeCoeff yCoeff = some p → |p| < 2 ^ 63 →
      IsTruncation (yAdj rect sizeCoeff yCoeff) p ∧
      ∃ s c, float64OfInt (size rect sizeCoeff) = some s ∧ fl64 yCoeff = some c ∧
        IsNearestFloat64 s ((size rect sizeCoeff : Int) : ℚ) ∧
        IsNearestFloat64 c yCoeff ∧ IsNearestFloat64 p (s * c)) := by
  refine ⟨fun p h hr => ?_, fun p h hr => ?_, fun p h hr => ?_⟩
  · obtain ⟨ht, x, y, hx, hy, hn⟩ := goInt_float64Mul h hr
    exact ⟨ht, x, y, hx, hy, fl64_isNearest hx, fl64_isNearest hy, hn⟩
  · obtain ⟨ht, x, y, hx, hy, hn⟩ := goInt_float64Mul h hr
    exact ⟨ht, x, y, hx, hy, fl64_isNearest hx, fl64_isNearest hy, hn⟩
  · obtain ⟨ht, x, y, hx, hy, hn⟩ := goInt_float64Mul h hr
    exact ⟨ht, x, y, hx, hy, fl64_isNearest hx, fl64_isNearest hy, hn⟩

/-- The `float64` nearest to `0.3`. -/
theorem fl64_three_tenths :
    fl64 (3 / 10) = some (((5404319552844595 : Int) : ℚ) * 2 ^ ((-2 : Int) - 52)) := by
  unfold fl64
  have hr : roundNearest (3 / 10) = ((5404319552844595 : Int) : ℚ) * 2 ^ ((-2 : Int) - 52) :=
    roundNearest_eq (-2) 5404319552844595
      (by rw [abs_of_pos (by norm_num)]; norm_num)
      (by rw [abs_of_pos (by norm_num)]; norm_num)
      (by norm_num)
      (by norm_num [abs_lt])
  rw [hr, if_pos]
  rw [abs_of_pos (by positivity)]
  norm_num

/-- The product of line 115 for a rectangle of width 200 and the coefficient `0.3`: the
`float64` nearest to `0.3` is below `0.3`, the exact product with 200 is below 60, and its
rounding to `float64` is 60. -/
theorem sizeFloat_200_three_tenths :
    sizeFloat ⟨⟨0, 0⟩, ⟨200, 200⟩⟩ (3 / 10) = some ((60 : Int) : ℚ) := by
  unfold sizeFloat float64OfInt
  rw [fl64_intCast (by decide), fl64_three_tenths]
  unfold float64Mul
  simp only
  unfold fl64
  have hr : roundNearest ((((200 : Int) - 0 : Int) : ℚ) *
      (((5404319552844595 : Int) : ℚ) * 2 ^ ((-2 : Int) - 52)))
      = ((8444249301319680 : Int) : ℚ) * 2 ^ ((5 : Int) - 52) :=
    roundNearest_eq 5 8444249301319680
      (by rw [abs_of_pos (by norm_num)]; norm_num)
      (by rw [abs_of_pos (by norm_num)]; norm_num)
      (by norm_num)
      (by norm_num [abs_lt])
  rw [hr, if_pos]
  · norm_num
  · rw [abs_of_pos (by positivity)]
    norm_num

/-- C1, witness: for a rectangle of width 200 and the coefficient `0.3` the `float64` product
is 60 and the size is its truncation. -/
theorem size_xAdj_yAdj_truncate_witness :
    IsTruncation (size ⟨⟨0, 0⟩, ⟨200, 200⟩⟩ (3 / 10)) ((60 : Int) : ℚ) :=
  ((size_xAdj_yAdj_truncate ⟨⟨0, 0⟩, ⟨200, 200⟩⟩ (3 / 10) 0 0).1 ((60 : Int) : ℚ)
    sizeFloat_200_three_tenths (by norm_num)).1

/-- The rounding of the product comes before the truncation: for a rectangle of width 200 and
the coefficient `0.3` the size is 60, while the exact product of 200 and the `float64` nearest
to `0.3` truncates to 59. -/
theorem size_200_three_tenths :
    size ⟨⟨0, 0⟩, ⟨200, 200⟩⟩ (3 / 10) = 60 ∧
    truncate ((200 : ℚ) * (((5404319552844595 : Int) : ℚ) * 2 ^ ((-2 : Int) - 52))) = 59 := by
  constructor
  · unfold size
    rw [sizeFloat_200_three_tenths, goInt_some (by norm_num), truncate_intCast]
  · unfold truncate
    rw [if_pos (by positivity), Int.floor_eq_iff]
    norm_num

/-- C1, counterexample: for a rectangle of width 101 and the size coefficient 1.5 the code
computes the size 151, while rounding `101 * 1.5 = 151.5` to the nearest integer gives 152. -/
theorem size_not_rounded :
    size ⟨⟨0, 0⟩, ⟨101, 101⟩⟩ (3 / 2) = 151 ∧
    round ((((101 : Int) - 0 : Int) : ℚ) * (3 / 2)) = 152 ∧
    size ⟨⟨0, 0⟩, ⟨101, 101⟩⟩ (3 / 2) ≠ round ((((101 : Int) - 0 : Int) : ℚ) * (3 / 2)) := by
  have h1 : size ⟨⟨0, 0⟩, ⟨101, 101⟩⟩ (3 / 2) = 151 := by
    rw [(size_of_product ⟨⟨0, 0⟩, ⟨101, 101⟩⟩ (3 / 2) (303 / 2) (by decide)
      (fl64_of_float 3 (-1) (by norm_num) (by norm_num) (by norm_num)
        (by rw [abs_of_pos (by norm_num)]; norm_num))
      (by
        have e : ((((101 : Int) - 0 : Int) : ℚ)) * (3 / 2) = 303 / 2 := by norm_num
        show fl64 ((((101 : Int) - 0 : Int) : ℚ) * (3 / 2)) = some (303 / 2)
        rw [e]
        exact fl64_of_float 303 (-1) (by norm_num) (by norm_num) (by norm_num)
          (by rw [abs_of_pos (by norm_num)]; norm_num))
      (by rw [abs_of_pos (by norm_num)]; norm_num)).2]
    unfold truncate
    rw [if_pos (by norm_num), Int.floor_eq_iff]
    norm_num
  have h2 : round ((((101 : Int) - 0 : Int) : ℚ) * (3 / 2)) = 152 := by
    rw [round_eq, Int.floor_eq_iff]
    norm_num
  refine ⟨h1, h2, ?_⟩
  rw [h1, h2]
  decide

/-! ## C3: doubling the size coefficient -/

/-- C3, as amended: for a fixed rectangle and a coefficient `c` such that `c` and `2 * c` are
`float64` values and the `float64` product for `2 * c` is finite and of magnitude below
`2^63`, the size computed with `2 * c` differs from twice the size computed with `c` by at
most one, and it is exactly twice that size whenever the `float64` product for `c` is an
integer. -/
theorem size_double_coeff (rect : Rectangle) (c : ℚ) (hc : IsFloat64 c)
    (hc2 : IsFloat64 (2 * c))
    (hr : ∃ p2, sizeFloat rect (2 * c) = some p2 ∧ |p2| < 2 ^ 63) :
    |size rect (2 * c) - 2 * size rect c| ≤ 1 ∧
    (∀ k : Int, sizeFloat rect c = some (k : ℚ) → size rect (2 * c) = 2 * size rect c) := by
  obtain ⟨p2, hp2, hr2⟩ := hr
  replace hc := fl64_of_isFloat64 hc
  replace hc2 := fl64_of_isFloat64 hc2
  unfold size
  unfold sizeFloat at hp2 ⊢
  rw [hc2] at hp2 ⊢
  rw [hc]
  cases hW : float64OfInt (rect.Max.X - rect.Min.X) with
  | none => rw [hW] at hp2; simp [float64Mul] at hp2
  | some w =>
    rw [hW] at hp2
    have e2 : float64Mul (some w) (some (2 * c)) = fl64 (2 * (w * c)) := by
      unfold float64Mul
      simp only
      congr 1
      ring
    have e1 : float64Mul (some w) (some c) = fl64 (w * c) := rfl
    rw [e2] at hp2 ⊢
    rw [e1]
    obtain ⟨hp2eq, -⟩ := fl64_eq_some hp2
    rcases le_or_lt ((2 : ℚ) ^ (-1022 : Int)) |w * c| with hn | hs
    · have hdouble := roundNearest_two_mul hn
      have hp2' : p2 = 2 * roundNearest (w * c) := by rw [hp2eq, hdouble]
      have hlt : |roundNearest (w * c)| < 2 ^ 63 := by
        have : |p2| = 2 * |roundNearest (w * c)| := by
          rw [hp2', abs_mul, abs_of_pos (by norm_num : (0 : ℚ) < 2)]
        linarith [abs_nonneg (roundNearest (w * c))]
      have h1 : fl64 (w * c) = some (roundNearest (w * c)) := by
        unfold fl64
        rw [if_pos]
        have big : (2 : ℚ) ^ 63 < 2 ^ 1024 := by norm_num
        linarith
      rw [hp2, h1, goInt_some hr2, goInt_some hlt, hp2']
      refine ⟨truncate_two_mul _, ?_⟩
      intro k hk
      have hk' : roundNearest (w * c) = (k : ℚ) := Option.some.inj hk
      rw [hk']
      have : (2 : ℚ) * (k : ℚ) = ((2 * k : Int) : ℚ) := by push_cast; ring
      rw [this, truncate_intCast, truncate_intCast]
    · have hs2 : |w * c| < (2 : ℚ) ^ (-1021 : Int) :=
        lt_of_lt_of_le hs (two_zpow_le (by norm_num))
      have hd : |2 * (w * c)| < (2 : ℚ) ^ (-1021 : Int) := by
        rw [abs_mul, abs_of_pos (by norm_num : (0 : ℚ) < 2)]
        have : (2 : ℚ) ^ (-1021 : Int) = 2 ^ (-1022 : Int) * 2 := by
          rw [← zpow_add_one₀ (by norm_num)]
          norm_num
        linarith
      have a1 := abs_roundNearest_lt_one hs2
      have a2 := abs_roundNearest_lt_one hd
      have big : (1 : ℚ) < 2 ^ 63 := by norm_num
      have big2 : (1 : ℚ) < 2 ^ 1024 := by norm_num
      have h1 : fl64 (w * c) = some (roundNearest (w * c)) := by
        unfold fl64
        rw [if_pos (by linarith)]
      have h2 : fl64 (2 * (w * c)) = some (roundNearest (2 * (w * c))) := by
        unfold fl64
        rw [if_pos (by linarith)]
      rw [h1, h2, goInt_some (by linarith), goInt_some (by linarith),
        truncate_eq_zero a1, truncate_eq_zero a2]
      exact ⟨by norm_num, fun _ _ => rfl⟩

/-- C3, witness: for a rectangle of width 100 and the coefficient 3, where the product 300 is
an integer, the size computed with the coefficient 6 is twice the size computed with 3. -/
theorem size_double_coeff_witness :
    size ⟨⟨100, 100⟩, ⟨200, 200⟩⟩ (2 * 3) = 2 * size ⟨⟨100, 100⟩, ⟨200, 200⟩⟩ 3 :=
  (size_double_coeff ⟨⟨100, 100⟩, ⟨200, 200⟩⟩ 3
    ⟨by norm_num, 3, 0, by norm_num, by norm_num, by norm_num⟩
    ⟨by norm_num, 6, 0, by norm_num, by norm_num, by norm_num⟩
    ⟨((600 : Int) : ℚ), by
      have h := (size_coeff_intCast ⟨⟨100, 100⟩, ⟨200, 200⟩⟩ 6 (by decide) (by decide)
        (by decide)).1
      have e : (2 : ℚ) * 3 = ((6 : Int) : ℚ) := by norm_num
      rw [e, h]
      rfl, by norm_num⟩).2 300
    (by
      have h := (size_coeff_intCast ⟨⟨100, 100⟩, ⟨200, 200⟩⟩ 3 (by decide) (by decide)
        (by decide)).1
      have e : (3 : ℚ) = ((3 : Int) : ℚ) := by norm_num
      rw [e, h]
      rfl)

/-- C3, counterexample: for a rectangle of width 3 the coefficient 0.5 gives the size 1 and
the doubled coefficient 1.0 gives the size 3, which is not twice 1. -/
theorem size_double_coeff_fails :
    size ⟨⟨0, 0⟩, ⟨3, 3⟩⟩ (1 / 2) = 1 ∧ size ⟨⟨0, 0⟩, ⟨3, 3⟩⟩ (2 * (1 / 2)) = 3 ∧
    size ⟨⟨0, 0⟩, ⟨3, 3⟩⟩ (2 * (1 / 2)) ≠ 2 * size ⟨⟨0, 0⟩, ⟨3, 3⟩⟩ (1 / 2) := by
  have h1 : size ⟨⟨0, 0⟩, ⟨3, 3⟩⟩ (1 / 2) = 1 := by
    rw [(size_of_product ⟨⟨0, 0⟩, ⟨3, 3⟩⟩ (1 / 2) (3 / 2) (by decide)
      (fl64_of_float 1 (-1) (by norm_num) (by norm_num) (by norm_num)
        (by rw [abs_of_pos (by norm_num)]; norm_num))
      (by
        have e : ((((3 : Int) - 0 : Int) : ℚ)) * (1 / 2) = 3 / 2 := by norm_num
        show fl64 ((((3 : Int) - 0 : Int) : ℚ) * (1 / 2)) = some (3 / 2)
        rw [e]
        exact fl64_of_float 3 (-1) (by norm_num) (by norm_num) (by norm_num)
          (by rw [abs_of_pos (by norm_num)]; norm_num))
      (by rw [abs_of_pos (by norm_num)]; norm_num)).2]
    unfold truncate
    rw [if_pos (by norm_num), Int.floor_eq_iff]
    norm_num
  have h2 : size ⟨⟨0, 0⟩, ⟨3, 3⟩⟩ (2 * (1 / 2)) = 3 := by
    have e : (2 : ℚ) * (1 / 2) = 1 := by norm_num
    rw [e, size_coeff_one _ (by decide)]
    decide
  refine ⟨h1, h2, ?_⟩
  rw [h1, h2]
  decide

/-! ## Rectangles and `draw.Draw` -/

theorem Point.In_iff (p : Point) (r : Rectangle) :
    p.In r = true ↔ r.Min.X ≤ p.X ∧ p.X < r.Max.X ∧ r.Min.Y ≤ p.Y ∧ p.Y < r.Max.Y := by
  simp [Point.In, and_assoc]

theorem Rectangle.Empty_iff (r : Rectangle) :
    r.Empty = true ↔ r.Max.X ≤ r.Min.X ∨ r.Max.Y ≤ r.Min.Y := by
  simp [Rectangle.Empty]

theorem Point.not_In_of_Empty {p : Point} {r : Rectangle} (h : r.Empty = true) :
    ¬ p.In r = true := by
  rw [Point.In_iff]
  rw [Rectangle.Empty_iff] at h
  omega

theorem Point.In_Intersect (p : Point) (a b : Rectangle) :
    p.In (a.Intersect b) = true ↔ p.In a = true ∧ p.In b = true := by
  unfold Rectangle.Intersect
  simp only
  split_ifs <;>
    simp only [Point.In_iff, Rectangle.Empty_iff, ZR, not_or, not_le] at * <;>
    constructor <;> intro hp <;> omega

theorem Point.In_clip (dst : RGBAImage) (r : Rectangle) (src : Image) (sp p : Point) :
    p.In (clip dst r src sp).1 = true ↔
      p.In r = true ∧ p.In dst.Rect = true ∧ p.In (src.Bounds.Add (r.Min.Sub sp)) = true := by
  simp only [clip, Point.In_Intersect, and_assoc]

theorem drawDraw_Rect (dst : RGBAImage) (r : Rectangle) (src : Image) (sp : Point) :
    (drawDraw dst r src sp).Rect = dst.Rect := by
  unfold drawDraw
  simp only
  split_ifs <;> rfl

theorem drawDraw_Pix (dst : RGBAImage) (r : Rectangle) (src : Image) (sp : Point) (x y : Int) :
    (drawDraw dst r src sp).Pix x y =
      if (Pt x y).In (clip dst r src sp).1 = true then
        over (src.At (sp.X + (x - r.Min.X)) (sp.Y + (y - r.Min.Y))) (dst.Pix x y)
      else dst.Pix x y := by
  unfold drawDraw
  simp only
  by_cases hE : (clip dst r src sp).1.Empty = true
  · rw [if_pos hE, if_neg (Point.not_In_of_Empty hE)]
  · rw [if_neg hE]
    simp only
    have ex : (clip dst r src sp).2.X + (x - (clip dst r src sp).1.Min.X)
        = sp.X + (x - r.Min.X) := by
      simp only [clip]; ring
    have ey : (clip dst r src sp).2.Y + (y - (clip dst r src sp).1.Min.Y)
        = sp.Y + (y - r.Min.Y) := by
      simp only [clip]; ring
    rw [ex, ey]

theorem RGBAImage.ext_iff' (a b : RGBAImage) :
    a = b ↔ a.Rect = b.Rect ∧ ∀ x y, a.Pix x y = b.Pix x y := by
  constructor
  · rintro rfl; exact ⟨rfl, fun _ _ => rfl⟩
  · rintro ⟨h1, h2⟩
    cases a; cases b
    simp only at h1 h2
    subst h1
    congr
    funext x y
    exact h2 x y

/-! ## One iteration of the compositing loop -/

theorem compositeStep_Rect (resize : Resizer) (gopherImage : Image) (c xc yc : ℚ)
    (dst : RGBAImage) (rect : Rectangle) :
    (compositeStep resize gopherImage c xc yc dst rect).Rect = dst.Rect := by
  unfold compositeStep
  exact drawDraw_Rect _ _ _ _

/-- The points an iteration may touch, relative to the origin of the destination, are those
of the placement region. -/
theorem In_placementRegion (resize : Resizer) (gopherImage : Image) (c xc yc : ℚ)
    (rect : Rectangle) (o : Point) (x y : Int) :
    (Pt x y).In ((newImage resize gopherImage rect c).Bounds.Add (o.Sub (pt rect c xc yc)))
        = true ↔
      (Pt (x - o.X) (y - o.Y)).In (placementRegion resize gopherImage c xc yc rect) = true := by
  simp only [Point.In_iff, placementRegion, Rectangle.Add, Point.Sub, pt, Pt]
  constructor <;> intro h <;> omega

theorem compositeStep_Pix (resize : Resizer) (gopherImage : Image) (c xc yc : ℚ)
    (dst : RGBAImage) (rect : Rectangle) (x y : Int) :
    (compositeStep resize gopherImage c xc yc dst rect).Pix x y =
      if (Pt x y).In dst.Rect = true ∧
          (Pt (x - dst.Rect.Min.X) (y - dst.Rect.Min.Y)).In
            (placementRegion resize gopherImage c xc yc rect) = true then
        over ((newImage resize gopherImage rect c).At
            ((pt rect c xc yc).X + (x - dst.Rect.Min.X))
            ((pt rect c xc yc).Y + (y - dst.Rect.Min.Y))) (dst.Pix x y)
      else dst.Pix x y := by
  unfold compositeStep
  rw [drawDraw_Pix]
  have hiff : (Pt x y).In (clip dst dst.Rect (newImage resize gopherImage rect c)
        (pt rect c xc yc)).1 = true ↔
      ((Pt x y).In dst.Rect = true ∧
        (Pt (x - dst.Rect.Min.X) (y - dst.Rect.Min.Y)).In
          (placementRegion resize gopherImage c xc yc rect) = true) := by
    rw [Point.In_clip, In_placementRegion]
    tauto
  by_cases h : (Pt x y).In (clip dst dst.Rect (newImage resize gopherImage rect c)
        (pt rect c xc yc)).1 = true
  · rw [if_pos h, if_pos (hiff.mp h)]
  · rw [if_neg h, if_neg (fun h2 => h (hiff.mpr h2))]

theorem compositeStep_Pix_of_outside (resize : Resizer) (gopherImage : Image) (c xc yc : ℚ)
    (dst : RGBAImage) (rect : Rectangle) (x y : Int)
    (h : ¬ (Pt (x - dst.Rect.Min.X) (y - dst.Rect.Min.Y)).In
      (placementRegion resize gopherImage c xc yc rect) = true) :
    (compositeStep resize gopherImage c xc yc dst rect).Pix x y = dst.Pix x y := by
  rw [compositeStep_Pix, if_neg (fun h2 => h h2.2)]

theorem foldl_compositeStep_Rect (resize : Resizer) (gopherImage : Image) (c xc yc : ℚ)
    (rects : List Rectangle) (dst : RGBAImage) :
    (rects.foldl (compositeStep resize gopherImage c xc yc) dst).Rect = dst.Rect := by
  induction rects generalizing dst with
  | nil => rfl
  | cons rect rest ih =>
    rw [List.foldl_cons, ih, compositeStep_Rect]

theorem foldl_compositeStep_Pix_of_outside (resize : Resizer) (gopherImage : Image)
    (c xc yc : ℚ) (rects : List Rectangle) (dst : RGBAImage) (x y : Int)
    (h : ∀ rect ∈ rects, ¬ (Pt (x - dst.Rect.Min.X) (y - dst.Rect.Min.Y)).In
      (placementRegion resize gopherImage c xc yc rect) = true) :
    (rects.foldl (compositeStep resize gopherImage c xc yc) dst).Pix x y = dst.Pix x y := by
  induction rects generalizing dst with
  | nil => rfl
  | cons rect rest ih =>
    rw [List.foldl_cons, ih]
    · exact compositeStep_Pix_of_outside _ _ _ _ _ _ _ _ _
        (h rect (List.mem_cons_self _ _))
    · intro r hr
      rw [compositeStep_Rect]
      exact h r (List.mem_cons_of_mem _ hr)

/-! ## The initial copy of the photo -/

theorem overChannel_zero (s : Fin 65536) (a : Nat) :
    overChannel 0 s a = Fin.ofNat (s.val >>> 8) := by
  unfold overChannel m
  have hlt : s.val * 65535 < 2 ^ 32 := by
    have := s.isLt
    norm_num
    omega
  have h0 : ((0 : Fin 256).val) = 0 := rfl
  rw [h0, Nat.zero_mul, Nat.zero_add, Nat.mod_eq_of_lt hlt,
    Nat.mul_div_cancel _ (by norm_num : 0 < 65535)]

theorem over_zero (s : Color) : over s ⟨0, 0, 0, 0⟩ = rgbaModel s := by
  unfold over rgbaModel
  simp only [overChannel_zero]

theorem initialDst_Rect (photoImage : Image) :
    (initialDst photoImage).Rect = photoImage.Bounds := by
  unfold initialDst
  simp only [drawDraw_Rect]
  rfl

theorem initialDst_Pix (photoImage : Image) (x y : Int)
    (h0 : photoImage.Bounds.Min = ⟨0, 0⟩) (hin : (Pt x y).In photoImage.Bounds = true) :
    (initialDst photoImage).Pix x y = rgbaModel (photoImage.At x y) := by
  unfold initialDst
  simp only [drawDraw_Pix]
  have hclip : (Pt x y).In (clip (NewRGBA photoImage.Bounds) (NewRGBA photoImage.Bounds).Rect
      photoImage ⟨0, 0⟩).1 = true := by
    rw [Point.In_clip]
    refine ⟨hin, hin, ?_⟩
    rw [Point.In_iff] at hin ⊢
    simp only [NewRGBA, Rectangle.Add, Point.Sub, h0, Pt] at hin ⊢
    omega
  rw [if_pos hclip]
  simp only [NewRGBA, h0, over_zero]
  congr 2 <;> omega

/-! ## C7: the bounds of the composite -/

/-- C7: for every photo, overlay, resizer, coefficients and list of detected rectangles, the
composite buffer has exactly the bounds of the photo, hence the same width and height: it is
allocated with the photo's bounds and no iteration changes them. -/
theorem composite_has_photo_bounds (resize : Resizer) (photoImage gopherImage : Image)
    (c xc yc : ℚ) (rects : List Rectangle) :
    (composite resize photoImage gopherImage c xc yc rects).Rect = photoImage.Bounds ∧
    (composite resize photoImage gopherImage c xc yc rects).Rect.Dx = photoImage.Bounds.Dx ∧
    (composite resize photoImage gopherImage c xc yc rects).Rect.Dy = photoImage.Bounds.Dy := by
  have h : (composite resize photoImage gopherImage c xc yc rects).Rect = photoImage.Bounds := by
    unfold composite
    rw [foldl_compositeStep_Rect, initialDst_Rect]
  rw [h]
  exact ⟨rfl, rfl, rfl⟩

/-! ## C6: pixels outside the placement regions -/

/-- C6: for a photo whose bounds start at `(0, 0)` (as those of every decoded image do), every
pixel of the composite that lies in no placement region of a detected rectangle is the
photo's pixel there (in the RGBA colour model of the buffer); and for an empty list of
rectangles every pixel of the composite is the photo's pixel. -/
theorem composite_outside_regions (resize : Resizer) (photoImage gopherImage : Image)
    (c xc yc : ℚ) (rects : List Rectangle) (x y : Int)
    (h0 : photoImage.Bounds.Min = ⟨0, 0⟩)
    (hin : (Pt x y).In photoImage.Bounds = true)
    (hout : ∀ rect ∈ rects,
      (Pt x y).In (placementRegion resize gopherImage c xc yc rect) = false) :
    (composite resize photoImage gopherImage c xc yc rects).Pix x y
        = rgbaModel (photoImage.At x y) ∧
    (composite resize photoImage gopherImage c xc yc []).Pix x y
        = rgbaModel (photoImage.At x y) := by
  constructor
  · unfold composite
    rw [foldl_compositeStep_Pix_of_outside, initialDst_Pix _ _ _ h0 hin]
    intro rect hrect
    rw [initialDst_Rect, h0]
    simp only [sub_zero]
    rw [hout rect hrect]
    exact Bool.false_ne_true
  · unfold composite
    rw [List.foldl_nil, initialDst_Pix _ _ _ h0 hin]

/-- C6, witness: in the 4 by 1 photo with the overlay placed on `rectA` (pixels 0 and 1), the
pixel 3 of the composite is the photo's pixel. -/
theorem composite_outside_regions_witness :
    (composite resizeNearest photo4x1 gopher2x1 1 0 0 [rectA]).Pix 3 0
      = rgbaModel (photo4x1.At 3 0) :=
  (composite_outside_regions resizeNearest photo4x1 gopher2x1 1 0 0 [rectA] 3 0 rfl
    (by decide)
    (by
      intro rect hrect
      rw [List.mem_singleton] at hrect
      subst hrect
      simp only [placementRegion, newImage, size_rectA, xAdj_coeff_zero, yAdj_coeff_zero]
      decide)).1

/-! ## C2: where the overlay lands -/

/-- C2: for a destination whose bounds start at `(0, 0)`, the source point of the draw is
`(-rect.Min.X + xAdj, -rect.Min.Y + yAdj)`, and every pixel `(u, v)` of the resized overlay,
in particular its pixel `(0, 0)`, is drawn at the composite coordinate
`(rect.Min.X - xAdj + u, rect.Min.Y - yAdj + v)` whenever that coordinate lies in the
composite; with both coefficients zero both adjustments are zero, so the overlay's
top-left lands at `(rect.Min.X, rect.Min.Y)`. -/
theorem compositeStep_places_overlay (resize : Resizer) (gopherImage : Image) (c xc yc : ℚ)
    (dst : RGBAImage) (rect : Rectangle) (u v : Int)
    (hdst : dst.Rect.Min = ⟨0, 0⟩)
    (huv : (Pt u v).In (newImage resize gopherImage rect c).Bounds = true)
    (hin : (Pt (rect.Min.X - xAdj rect c xc + u) (rect.Min.Y - yAdj rect c yc + v)).In
      dst.Rect = true) :
    pt rect c xc yc = Pt (-rect.Min.X + xAdj rect c xc) (-rect.Min.Y + yAdj rect c yc) ∧
    (compositeStep resize gopherImage c xc yc dst rect).Pix
        (rect.Min.X - xAdj rect c xc + u) (rect.Min.Y - yAdj rect c yc + v)
      = over ((newImage resize gopherImage rect c).At u v)
          (dst.Pix (rect.Min.X - xAdj rect c xc + u) (rect.Min.Y - yAdj rect c yc + v)) ∧
    (xAdj rect c 0 = 0 ∧ yAdj rect c 0 = 0 ∧ pt rect c 0 0 = Pt (-rect.Min.X) (-rect.Min.Y)) := by
  refine ⟨rfl, ?_, xAdj_coeff_zero rect c, yAdj_coeff_zero rect c, ?_⟩
  · rw [compositeStep_Pix, if_pos]
    · have ex : (pt rect c xc yc).X + (rect.Min.X - xAdj rect c xc + u - dst.Rect.Min.X) = u := by
        simp only [pt, Pt, hdst]; ring
      have ey : (pt rect c xc yc).Y + (rect.Min.Y - yAdj rect c yc + v - dst.Rect.Min.Y) = v := by
        simp only [pt, Pt, hdst]; ring
      rw [ex, ey]
    · refine ⟨hin, ?_⟩
      rw [Point.In_iff] at huv ⊢
      simp only [placementRegion, Rectangle.Add, Pt, hdst] at huv ⊢
      omega
  · unfold pt
    rw [xAdj_coeff_zero, yAdj_coeff_zero, add_zero, add_zero]

/-- C2, witness: drawing the 2 by 1 overlay for `rectB` (whose top-left is `(1, 0)`) with zero
offsets puts the overlay's pixel `(0, 0)` at the composite coordinate `(1, 0)`. -/
theorem compositeStep_places_overlay_witness :
    (compositeStep resizeNearest gopher2x1 1 0 0 (initialDst photo4x1) rectB).Pix
        (rectB.Min.X - xAdj rectB 1 0 + 0) (rectB.Min.Y - yAdj rectB 1 0 + 0)
      = over ((newImage resizeNearest gopher2x1 rectB 1).At 0 0)
          ((initialDst photo4x1).Pix (rectB.Min.X - xAdj rectB 1 0 + 0)
            (rectB.Min.Y - yAdj rectB 1 0 + 0)) :=
  (compositeStep_places_overlay resizeNearest gopher2x1 1 0 0 (initialDst photo4x1) rectB 0 0
    (by decide)
    (by simp only [newImage, size_rectB]; decide)
    (by rw [xAdj_coeff_zero, yAdj_coeff_zero]; decide)).2.1

/-! ## C4: a size that is zero or negative -/

theorem goUint_of_neg {n : Int} (h : n < 0) (hmin : -2 ^ 63 ≤ n) :
    (goUint n : Int) = 2 ^ 64 + n ∧ 2 ^ 63 ≤ goUint n := by
  unfold goUint
  have hmod : n % 2 ^ 64 = 2 ^ 64 + n := by
    norm_num at hmin ⊢
    omega
  rw [hmod]
  have hnn : (0 : Int) ≤ 2 ^ 64 + n := by omega
  constructor
  · exact Int.toNat_of_nonneg hnn
  · have : ((2 ^ 63 : Nat) : Int) ≤ ((2 ^ 64 + n).toNat : Int) := by
      rw [Int.toNat_of_nonneg hnn]
      push_cast
      omega
    exact_mod_cast this

theorem goUint_zero : goUint 0 = 0 := by decide

theorem resizeCall_zero (resample : Nat → Image → Image) (img : Image) :
    resizeCall resample 0 img = some img := by
  have hp : resizePanics 0 img = false := by
    unfold resizePanics
    simp
  unfold resizeCall
  rw [hp]
  unfold resizeResize
  simp

theorem resizeCall_of_large (resample : Nat → Image → Image) (width : Nat) (img : Image)
    (hx : 0 < img.Bounds.Dx) (hy : 0 < img.Bounds.Dy) (hw : 2 ^ 63 ≤ width) :
    resizeCall resample width img = none := by
  have hp : resizePanics width img = true := by
    unfold resizePanics
    rw [decide_eq_true hx, decide_eq_true hy, decide_eq_true hw]
    rfl
  unfold resizeCall
  rw [hp]
  rfl

theorem compositeStepRun_size_zero (resample : Nat → Image → Image) (gopherImage : Image)
    (c xc yc : ℚ) (dst : RGBAImage) (rect : Rectangle) (h0 : size rect c = 0) :
    compositeStepRun resample gopherImage c xc yc dst rect
      = some (drawDraw dst dst.Rect gopherImage (pt rect c xc yc)) := by
  unfold compositeStepRun
  rw [h0, goUint_zero, resizeCall_zero]

theorem compositeStepRun_size_neg (resample : Nat → Image → Image) (gopherImage : Image)
    (c xc yc : ℚ) (dst : RGBAImage) (rect : Rectangle) (hneg : size rect c < 0)
    (hpix : 0 < gopherImage.Bounds.Dx ∧ 0 < gopherImage.Bounds.Dy) :
    compositeStepRun resample gopherImage c xc yc dst rect = none := by
  unfold compositeStepRun
  rw [resizeCall_of_large resample _ gopherImage hpix.1 hpix.2
    (goUint_of_neg hneg (size_range rect c).1).2]

/-- When the resizer does not panic, the iteration as it runs is the iteration with the
returned image. -/
theorem compositeStepRun_of_not_panics (resample : Nat → Image → Image) (gopherImage : Image)
    (c xc yc : ℚ) (dst : RGBAImage) (rect : Rectangle)
    (h : resizePanics (goUint (size rect c)) gopherImage = false) :
    compositeStepRun resample gopherImage c xc yc dst rect
      = some (compositeStep (resizeResize resample) gopherImage c xc yc dst rect) := by
  unfold compositeStepRun resizeCall compositeStep newImage
  rw [h]
  rfl

theorem goInt_zero_mul (s x : ℚ) (hs0 : s = 0) :
    goInt (float64Mul (some s) (some x)) = 0 := by
  unfold float64Mul
  simp only
  rw [hs0, zero_mul, fl64_zero, goInt_some_zero]

/-- C4, as amended: when the computed size is zero or negative and the overlay has pixels,
the iteration does one of two things.  If the size is zero, the resizer is called with the
width `0`, returns the overlay as it is, and the iteration draws the unresized overlay with
the usual source point (whose offsets are zero for finite offset coefficients).  If the size
is negative, the resizer is called with the width `2^64 + size`, which is at least `2^63`,
and the call panics: the iteration produces no buffer. -/
theorem compositeStepRun_nonpositive_size (resample : Nat → Image → Image)
    (gopherImage : Image) (c xc yc : ℚ) (dst : RGBAImage) (rect : Rectangle)
    (h : size rect c ≤ 0)
    (hpix : 0 < gopherImage.Bounds.Dx ∧ 0 < gopherImage.Bounds.Dy) :
    (size rect c = 0 ∧ goUint (size rect c) = 0 ∧
      resizeCall resample (goUint (size rect c)) gopherImage = some gopherImage ∧
      compositeStepRun resample gopherImage c xc yc dst rect
        = some (drawDraw dst dst.Rect gopherImage (pt rect c xc yc)) ∧
      (∀ x, fl64 xc = some x → xAdj rect c xc = 0) ∧
      (∀ y, fl64 yc = some y → yAdj rect c yc = 0)) ∨
    (size rect c < 0 ∧ (goUint (size rect c) : Int) = 2 ^ 64 + size rect c ∧
      2 ^ 63 ≤ goUint (size rect c) ∧
      resizeCall resample (goUint (size rect c)) gopherImage = none ∧
      compositeStepRun resample gopherImage c xc yc dst rect = none) := by
  rcases h.eq_or_lt with h0 | hneg
  · left
    have hz : float64OfInt (size rect c) = some 0 := by
      rw [h0]
      unfold float64OfInt
      simpa using fl64_zero
    refine ⟨h0, by rw [h0, goUint_zero], by rw [h0, goUint_zero, resizeCall_zero],
      compositeStepRun_size_zero resample gopherImage c xc yc dst rect h0, ?_, ?_⟩
    · intro x hx
      unfold xAdj xAdjFloat
      rw [hz, hx]
      exact goInt_zero_mul 0 x rfl
    · intro y hy
      unfold yAdj yAdjFloat
      rw [hz, hy]
      exact goInt_zero_mul 0 y rfl
  · right
    have hu := goUint_of_neg hneg (size_range rect c).1
    exact ⟨hneg, hu.1, hu.2,
      resizeCall_of_large resample _ gopherImage hpix.1 hpix.2 hu.2,
      compositeStepRun_size_neg resample gopherImage c xc yc dst rect hneg hpix⟩

theorem size_rectA_zero : size rectA 0 = 0 :=
  size_coeff_zero rectA (by decide)

theorem size_unit_neg_one : size ⟨⟨0, 0⟩, ⟨1, 1⟩⟩ (-1) = -1 := by
  rw [size_coeff_neg_one _ (by decide)]
  decide

/-- C4, witness: with the coefficient `0` the iteration for `rectA` draws the unresized
overlay, and with the coefficient `-1` the iteration for a rectangle of width 1 produces no
buffer. -/
theorem compositeStepRun_nonpositive_size_witness :
    compositeStepRun resampleNearest gopher2x1 0 0 0 (initialDst photo4x1) rectA
      = some (drawDraw (initialDst photo4x1) (initialDst photo4x1).Rect gopher2x1
          (pt rectA 0 0 0)) ∧
    compositeStepRun resampleNearest gopher2x1 (-1) 0 0 (initialDst photo4x1)
      ⟨⟨0, 0⟩, ⟨1, 1⟩⟩ = none :=
  ⟨((compositeStepRun_nonpositive_size resampleNearest gopher2x1 0 0 0 (initialDst photo4x1)
      rectA (by rw [size_rectA_zero]) (by decide)).resolve_right
        (fun hn => absurd hn.1 (by rw [size_rectA_zero]; decide))).2.2.2.1,
    ((compositeStepRun_nonpositive_size resampleNearest gopher2x1 (-1) 0 0
      (initialDst photo4x1) ⟨⟨0, 0⟩, ⟨1, 1⟩⟩ (by rw [size_unit_neg_one]; decide)
      (by decide)).resolve_left
        (fun hz => absurd hz.1 (by rw [size_unit_neg_one]; decide))).2.2.2.2⟩

/-- C4, counterexample: with the size coefficient `0` the size for `rectA` is `0`, and the
iteration turns the pixel `(0, 0)` of the composite from the photo's white to the overlay's
red, so the buffer is not unchanged; with the size coefficient `-1` the size for a rectangle
of width 1 is `-1`, the width handed to the resizer is `uint(-1) = 18446744073709551615`,
not an empty width, and the resizer panics, so the iteration fails. -/
theorem nonpositive_size_draws_or_fails :
    size rectA 0 = 0 ∧
    (∃ buf, compositeStepRun resampleNearest gopher2x1 0 0 0 (initialDst photo4x1) rectA
        = some buf ∧ buf.Pix 0 0 = ⟨255, 0, 0, 255⟩) ∧
    (initialDst photo4x1).Pix 0 0 = ⟨255, 255, 255, 255⟩ ∧
    size ⟨⟨0, 0⟩, ⟨1, 1⟩⟩ (-1) = -1 ∧
    goUint (size ⟨⟨0, 0⟩, ⟨1, 1⟩⟩ (-1)) = 18446744073709551615 ∧
    compositeStepRun resampleNearest gopher2x1 (-1) 0 0 (initialDst photo4x1)
      ⟨⟨0, 0⟩, ⟨1, 1⟩⟩ = none := by
  refine ⟨size_rectA_zero, ⟨_, compositeStepRun_size_zero resampleNearest gopher2x1 0 0 0
    (initialDst photo4x1) rectA size_rectA_zero, ?_⟩, by decide, size_unit_neg_one, ?_, ?_⟩
  · simp only [pt, xAdj_coeff_zero, yAdj_coeff_zero]
    set_option maxRecDepth 100000 in decide
  · rw [size_unit_neg_one]
    decide
  · exact compositeStepRun_size_neg resampleNearest gopher2x1 (-1) 0 0 (initialDst photo4x1)
      ⟨⟨0, 0⟩, ⟨1, 1⟩⟩ (by rw [size_unit_neg_one]; decide) (by decide)

/-! ## Empty sources -/

theorem Rectangle.Intersect_Empty_right (a b : Rectangle) (h : b.Empty = true) :
    (a.Intersect b).Empty = true := by
  unfold Rectangle.Intersect
  simp only
  split_ifs <;>
    first
    | rfl
    | (simp only [Rectangle.Empty_iff, not_or, not_le] at *; omega)

theorem Rectangle.Add_Empty (b : Rectangle) (p : Point) (h : b.Empty = true) :
    (b.Add p).Empty = true := by
  rw [Rectangle.Empty_iff] at h ⊢
  simp only [Rectangle.Add]
  omega

theorem drawDraw_of_Empty (dst : RGBAImage) (r : Rectangle) (src : Image) (sp : Point)
    (h : src.Bounds.Empty = true) : drawDraw dst r src sp = dst := by
  unfold drawDraw
  simp only
  rw [if_pos]
  simp only [clip]
  exact Rectangle.Intersect_Empty_right _ _ (Rectangle.Add_Empty _ _ h)

/-! ## C5: the order of the rectangles -/

theorem Rectangle.In_Min_of_not_Empty (r : Rectangle) (h : ¬ r.Empty = true) :
    r.Min.In r = true := by
  rw [Rectangle.Empty_iff] at h
  rw [Point.In_iff]
  omega

theorem Rectangle.Disjoint_iff (r s : Rectangle) :
    r.Disjoint s = true ↔ ∀ p : Point, ¬ (p.In r = true ∧ p.In s = true) := by
  unfold Rectangle.Disjoint
  constructor
  · intro h p hp
    exact Point.not_In_of_Empty h ((Point.In_Intersect p r s).mpr hp)
  · intro h
    by_contra hne
    exact h _ ((Point.In_Intersect _ r s).mp (Rectangle.In_Min_of_not_Empty _ hne))

theorem Rectangle.Disjoint_symm (r s : Rectangle) (h : r.Disjoint s = true) :
    s.Disjoint r = true := by
  rw [Rectangle.Disjoint_iff] at h ⊢
  exact fun p hp => h p ⟨hp.2, hp.1⟩

/-- Two iterations whose placement regions are disjoint commute. -/
theorem compositeStep_comm (resize : Resizer) (gopherImage : Image) (c xc yc : ℚ)
    (a b : Rectangle) (dst : RGBAImage)
    (h : (placementRegion resize gopherImage c xc yc a).Disjoint
      (placementRegion resize gopherImage c xc yc b) = true) :
    compositeStep resize gopherImage c xc yc (compositeStep resize gopherImage c xc yc dst a) b
      = compositeStep resize gopherImage c xc yc
          (compositeStep resize gopherImage c xc yc dst b) a := by
  rw [Rectangle.Disjoint_iff] at h
  rw [RGBAImage.ext_iff']
  refine ⟨by simp only [compositeStep_Rect], ?_⟩
  intro x y
  simp only [compositeStep_Pix, compositeStep_Rect]
  have hd := h (Pt (x - dst.Rect.Min.X) (y - dst.Rect.Min.Y))
  by_cases ha : (Pt (x - dst.Rect.Min.X) (y - dst.Rect.Min.Y)).In
      (placementRegion resize gopherImage c xc yc a) = true
  · have hb : ¬ (Pt (x - dst.Rect.Min.X) (y - dst.Rect.Min.Y)).In
        (placementRegion resize gopherImage c xc yc b) = true := fun hb => hd ⟨ha, hb⟩
    simp [ha, hb]
  · simp [ha]

/-- C5, as amended: when the placement regions of the detected rectangles are pairwise
disjoint, the composite is the same for every permutation of the list of rectangles. -/
theorem composite_perm_of_disjoint (resize : Resizer) (photoImage gopherImage : Image)
    (c xc yc : ℚ) (rects rects' : List Rectangle) (hperm : rects.Perm rects')
    (hdisj : PlacementsDisjoint resize gopherImage c xc yc rects) :
    composite resize photoImage gopherImage c xc yc rects
      = composite resize photoImage gopherImage c xc yc rects' := by
  unfold composite
  apply List.Perm.foldl_eq' hperm
  intro a ha b hb z
  by_cases hab : a = b
  · rw [hab]
  · exact compositeStep_comm resize gopherImage c xc yc a b z
      (List.Pairwise.forall (fun r s hrs => Rectangle.Disjoint_symm _ _ hrs) hdisj ha hb hab)

/-- C5, witness: `rectA` and `rectC` have disjoint placement regions, and compositing them in
either order gives the same buffer. -/
theorem composite_perm_of_disjoint_witness :
    composite resizeNearest photo4x1 gopher2x1 1 0 0 [rectA, rectC]
      = composite resizeNearest photo4x1 gopher2x1 1 0 0 [rectC, rectA] :=
  composite_perm_of_disjoint resizeNearest photo4x1 gopher2x1 1 0 0 [rectA, rectC]
    [rectC, rectA] (List.Perm.swap rectC rectA [])
    (by
      unfold PlacementsDisjoint
      simp only [List.pairwise_cons, List.mem_singleton, List.not_mem_nil, forall_eq,
        List.Pairwise.nil, and_true, IsEmpty.forall_iff, implies_true,
        placementRegion, newImage, size_rectA, size_rectC, xAdj_coeff_zero,
        yAdj_coeff_zero]
      decide)

/-- C5, counterexample: `rectA` and `rectB` overlap in the pixel `(1, 0)`; compositing
`rectA` then `rectB` leaves the overlay's red pixel there, compositing `rectB` then `rectA`
leaves its blue pixel there, so the two orders give different buffers. -/
theorem composite_order_matters :
    List.Perm [rectA, rectB] [rectB, rectA] ∧
    (composite resizeNearest photo4x1 gopher2x1 1 0 0 [rectA, rectB]).Pix 1 0
      = ⟨255, 0, 0, 255⟩ ∧
    (composite resizeNearest photo4x1 gopher2x1 1 0 0 [rectB, rectA]).Pix 1 0
      = ⟨0, 0, 255, 255⟩ ∧
    composite resizeNearest photo4x1 gopher2x1 1 0 0 [rectA, rectB]
      ≠ composite resizeNearest photo4x1 gopher2x1 1 0 0 [rectB, rectA] := by
  have h1 : (composite resizeNearest photo4x1 gopher2x1 1 0 0 [rectA, rectB]).Pix 1 0
      = ⟨255, 0, 0, 255⟩ := by
    simp only [composite, List.foldl, compositeStep, newImage, pt, size_rectA, size_rectB,
      xAdj_coeff_zero, yAdj_coeff_zero]
    set_option maxRecDepth 100000 in decide
  have h2 : (composite resizeNearest photo4x1 gopher2x1 1 0 0 [rectB, rectA]).Pix 1 0
      = ⟨0, 0, 255, 255⟩ := by
    simp only [composite, List.foldl, compositeStep, newImage, pt, size_rectA, size_rectB,
      xAdj_coeff_zero, yAdj_coeff_zero]
    set_option maxRecDepth 100000 in decide
  refine ⟨List.Perm.swap rectB rectA [], h1, h2, ?_⟩
  intro heq
  rw [heq, h2] at h1
  exact absurd h1 (by decide)

/-! ## The resizer at the width zero -/

/-- With the resizer of `github.com/nfnt/resize`, whatever its resampling, a size of zero
makes the resizer return the overlay itself, not an empty image. -/
theorem newImage_resizeResize_size_zero (resample : Nat → Image → Image) (gopherImage : Image)
    (rect : Rectangle) (c : ℚ) (h : size rect c = 0) :
    newImage (resizeResize resample) gopherImage rect c = gopherImage := by
  unfold newImage resizeResize
  rw [h]
  rw [goUint_zero]
  split_ifs with h1 h2
  · rfl
  · rfl
  · exact absurd (Or.inl rfl) h2

/-- With the size coefficient `0` the size is `0`, and with the resizer of
`github.com/nfnt/resize` the iteration for `rectA` draws the unresized overlay: the pixel
`(0, 0)` of the composite turns from white to the overlay's red. -/
theorem compositeStep_size_zero_draws :
    size rectA 0 = 0 ∧
    (initialDst photo4x1).Pix 0 0 = ⟨255, 255, 255, 255⟩ ∧
    (compositeStep resizeNearest gopher2x1 0 0 0 (initialDst photo4x1) rectA).Pix 0 0
      = ⟨255, 0, 0, 255⟩ := by
  refine ⟨size_rectA_zero, by decide, ?_⟩
  simp only [compositeStep, newImage, pt, size_rectA_zero, xAdj_coeff_zero, yAdj_coeff_zero]
  set_option maxRecDepth 100000 in decide

/-! ## C8: the stages of `run` -/

theorem run_of_detectFace_error (env : Env) (classifierFilePath photoImagePath : String)
    (scale : ℚ) (minNeighbours minSize maxSize : Int) (gopherImagePath : String) (c xc yc : ℚ)
    (outputImagePath : String) (w : World) (e : String) (w1 : World)
    (h1 : detectFace env classifierFilePath photoImagePath scale minNeighbours minSize maxSize w
      = (.error e, w1)) :
    run env classifierFilePath photoImagePath scale minNeighbours minSize maxSize
      gopherImagePath c xc yc outputImagePath w = (some ("detect face: " ++ e), w1) := by
  unfold run
  rw [h1]

theorem run_of_readPhoto_error (env : Env) (classifierFilePath photoImagePath : String)
    (scale : ℚ) (minNeighbours minSize maxSize : Int) (gopherImagePath : String) (c xc yc : ℚ)
    (outputImagePath : String) (w : World) (rects : List Rectangle) (w1 : World) (e : String)
    (w2 : World)
    (h1 : detectFace env classifierFilePath photoImagePath scale minNeighbours minSize maxSize w
      = (.ok rects, w1))
    (h2 : readImage env photoImagePath w1 = (.error e, w2)) :
    run env classifierFilePath photoImagePath scale minNeighbours minSize maxSize
      gopherImagePath c xc yc outputImagePath w = (some ("read photo image: " ++ e), w2) := by
  unfold run
  rw [h1]
  simp only
  rw [h2]

theorem run_of_readGopher_error (env : Env) (classifierFilePath photoImagePath : String)
    (scale : ℚ) (minNeighbours minSize maxSize : Int) (gopherImagePath : String) (c xc yc : ℚ)
    (outputImagePath : String) (w : World) (rects : List Rectangle) (w1 : World)
    (photoImage : Image) (w2 : World) (e : String) (w3 : World)
    (h1 : detectFace env classifierFilePath photoImagePath scale minNeighbours minSize maxSize w
      = (.ok rects, w1))
    (h2 : readImage env photoImagePath w1 = (.ok photoImage, w2))
    (h3 : readImage env gopherImagePath w2 = (.error e, w3)) :
    run env classifierFilePath photoImagePath scale minNeighbours minSize maxSize
      gopherImagePath c xc yc outputImagePath w = (some ("read gopher image: " ++ e), w3) := by
  unfold run
  rw [h1]
  simp only
  rw [h2]
  simp only
  rw [h3]

theorem run_of_write_error (env : Env) (classifierFilePath photoImagePath : String)
    (scale : ℚ) (minNeighbours minSize maxSize : Int) (gopherImagePath : String) (c xc yc : ℚ)
    (outputImagePath : String) (w : World) (rects : List Rectangle) (w1 : World)
    (photoImage : Image) (w2 : World) (gopherImage : Image) (w3 : World) (e : String)
    (w4 : World)
    (h1 : detectFace env classifierFilePath photoImagePath scale minNeighbours minSize maxSize w
      = (.ok rects, w1))
    (h2 : readImage env photoImagePath w1 = (.ok photoImage, w2))
    (h3 : readImage env gopherImagePath w2 = (.ok gopherImage, w3))
    (h4 : writeOutputJpeg env outputImagePath
      (composite env.resize photoImage gopherImage c xc yc rects) w3 = (some e, w4)) :
    run env classifierFilePath photoImagePath scale minNeighbours minSize maxSize
      gopherImagePath c xc yc outputImagePath w = (some ("write output file: " ++ e), w4) := by
  unfold run
  rw [h1]
  simp only
  rw [h2]
  simp only
  rw [h3]
  simp only
  rw [h4]

theorem run_of_all_ok (env : Env) (classifierFilePath photoImagePath : String)
    (scale : ℚ) (minNeighbours minSize maxSize : Int) (gopherImagePath : String) (c xc yc : ℚ)
    (outputImagePath : String) (w : World) (rects : List Rectangle) (w1 : World)
    (photoImage : Image) (w2 : World) (gopherImage : Image) (w3 : World) (w4 : World)
    (h1 : detectFace env classifierFilePath photoImagePath scale minNeighbours minSize maxSize w
      = (.ok rects, w1))
    (h2 : readImage env photoImagePath w1 = (.ok photoImage, w2))
    (h3 : readImage env gopherImagePath w2 = (.ok gopherImage, w3))
    (h4 : writeOutputJpeg env outputImagePath
      (composite env.resize photoImage gopherImage c xc yc rects) w3 = (none, w4)) :
    run env classifierFilePath photoImagePath scale minNeighbours minSize maxSize
      gopherImagePath c xc yc outputImagePath w = (none, w4) := by
  unfold run
  rw [h1]
  simp only
  rw [h2]
  simp only
  rw [h3]
  simp only
  rw [h4]

/-- C8: `run` executes detect, read photo, read overlay, composite, write in this order, each
stage starting in the world its predecessor left.  It returns the error of the first stage
that fails, prefixed with `detect face: `, `read photo image: `, `read gopher image: ` or
`write output file: `, in the world that stage left, so no later stage is invoked; and it
returns nil exactly when all four fallible stages succeed. -/
theorem run_stages (env : Env) (classifierFilePath photoImagePath : String) (scale : ℚ)
    (minNeighbours minSize maxSize : Int) (gopherImagePath : String) (c xc yc : ℚ)
    (outputImagePath : String) (w : World) :
    ((∃ e w1, detectFace env classifierFilePath photoImagePath scale minNeighbours minSize
          maxSize w = (.error e, w1) ∧
        run env classifierFilePath photoImagePath scale minNeighbours minSize maxSize
          gopherImagePath c xc yc outputImagePath w = (some ("detect face: " ++ e), w1)) ∨
     (∃ rects w1, detectFace env classifierFilePath photoImagePath scale minNeighbours minSize
          maxSize w = (.ok rects, w1) ∧
        ((∃ e w2, readImage env photoImagePath w1 = (.error e, w2) ∧
            run env classifierFilePath photoImagePath scale minNeighbours minSize maxSize
              gopherImagePath c xc yc outputImagePath w
              = (some ("read photo image: " ++ e), w2)) ∨
         (∃ photoImage w2, readImage env photoImagePath w1 = (.ok photoImage, w2) ∧
            ((∃ e w3, readImage env gopherImagePath w2 = (.error e, w3) ∧
                run env classifierFilePath photoImagePath scale minNeighbours minSize maxSize
                  gopherImagePath c xc yc outputImagePath w
                  = (some ("read gopher image: " ++ e), w3)) ∨
             (∃ gopherImage w3, readImage env gopherImagePath w2 = (.ok gopherImage, w3) ∧
                ((∃ e w4, writeOutputJpeg env outputImagePath
                      (composite env.resize photoImage gopherImage c xc yc rects) w3
                      = (some e, w4) ∧
                    run env classifierFilePath photoImagePath scale minNeighbours minSize
                      maxSize gopherImagePath c xc yc outputImagePath w
                      = (some ("write output file: " ++ e), w4)) ∨
                 (∃ w4, writeOutputJpeg env outputImagePath
                      (composite env.resize photoImage gopherImage c xc yc rects) w3
                      = (none, w4) ∧
                    run env classifierFilePath photoImagePath scale minNeighbours minSize
                      maxSize gopherImagePath c xc yc outputImagePath w
                      = (none, w4))))))))) ∧
    ((run env classifierFilePath photoImagePath scale minNeighbours minSize maxSize
          gopherImagePath c xc yc outputImagePath w).1 = none ↔
      ∃ rects w1 photoImage w2 gopherImage w3 w4,
        detectFace env classifierFilePath photoImagePath scale minNeighbours minSize maxSize w
          = (.ok rects, w1) ∧
        readImage env photoImagePath w1 = (.ok photoImage, w2) ∧
        readImage env gopherImagePath w2 = (.ok gopherImage, w3) ∧
        writeOutputJpeg env outputImagePath
          (composite env.resize photoImage gopherImage c xc yc rects) w3 = (none, w4)) := by
  rcases h1 : detectFace env classifierFilePath photoImagePath scale minNeighbours minSize
    maxSize w with ⟨e | rects, w1⟩
  · have hr := run_of_detectFace_error env classifierFilePath photoImagePath scale
      minNeighbours minSize maxSize gopherImagePath c xc yc outputImagePath w e w1 h1
    refine ⟨Or.inl ⟨e, w1, rfl, hr⟩, ?_⟩
    rw [hr]
    constructor
    · intro h; exact absurd h (by simp)
    · rintro ⟨_, _, _, _, _, _, _, hd, _⟩
      simp at hd
  · rcases h2 : readImage env photoImagePath w1 with ⟨e | photoImage, w2⟩
    · have hr := run_of_readPhoto_error env classifierFilePath photoImagePath scale
        minNeighbours minSize maxSize gopherImagePath c xc yc outputImagePath w rects w1 e w2
        h1 h2
      refine ⟨Or.inr ⟨rects, w1, rfl, Or.inl ⟨e, w2, h2, hr⟩⟩, ?_⟩
      rw [hr]
      constructor
      · intro h; exact absurd h (by simp)
      · rintro ⟨_, _, _, _, _, _, _, hd, hp, _⟩
        simp only [Prod.mk.injEq, Except.ok.injEq] at hd
        obtain ⟨rfl, rfl⟩ := hd
        rw [h2] at hp
        simp at hp
    · rcases h3 : readImage env gopherImagePath w2 with ⟨e | gopherImage, w3⟩
      · have hr := run_of_readGopher_error env classifierFilePath photoImagePath scale
          minNeighbours minSize maxSize gopherImagePath c xc yc outputImagePath w rects w1
          photoImage w2 e w3 h1 h2 h3
        refine ⟨Or.inr ⟨rects, w1, rfl, Or.inr ⟨photoImage, w2, h2,
          Or.inl ⟨e, w3, h3, hr⟩⟩⟩, ?_⟩
        rw [hr]
        constructor
        · intro h; exact absurd h (by simp)
        · rintro ⟨_, _, _, _, _, _, _, hd, hp, hg, _⟩
          simp only [Prod.mk.injEq, Except.ok.injEq] at hd
          obtain ⟨rfl, rfl⟩ := hd
          rw [h2] at hp
          simp only [Prod.mk.injEq, Except.ok.injEq] at hp
          obtain ⟨rfl, rfl⟩ := hp
          rw [h3] at hg
          simp at hg
      · rcases h4 : writeOutputJpeg env outputImagePath
          (composite env.resize photoImage gopherImage c xc yc rects) w3 with ⟨_ | e, w4⟩
        · have hr := run_of_all_ok env classifierFilePath photoImagePath scale
            minNeighbours minSize maxSize gopherImagePath c xc yc outputImagePath w rects w1
            photoImage w2 gopherImage w3 w4 h1 h2 h3 h4
          refine ⟨Or.inr ⟨rects, w1, rfl, Or.inr ⟨photoImage, w2, h2,
            Or.inr ⟨gopherImage, w3, h3, Or.inr ⟨w4, h4, hr⟩⟩⟩⟩, ?_⟩
          rw [hr]
          exact ⟨fun _ => ⟨rects, w1, photoImage, w2, gopherImage, w3, w4, rfl, h2, h3, h4⟩,
            fun _ => rfl⟩
        · have hr := run_of_write_error env classifierFilePath photoImagePath scale
            minNeighbours minSize maxSize gopherImagePath c xc yc outputImagePath w rects w1
            photoImage w2 gopherImage w3 e w4 h1 h2 h3 h4
          refine ⟨Or.inr ⟨rects, w1, rfl, Or.inr ⟨photoImage, w2, h2,
            Or.inr ⟨gopherImage, w3, h3, Or.inl ⟨e, w4, h4, hr⟩⟩⟩⟩, ?_⟩
          rw [hr]
          constructor
          · intro h; exact absurd h (by simp)
          · rintro ⟨_, _, _, _, _, _, _, hd, hp, hg, hw⟩
            simp only [Prod.mk.injEq, Except.ok.injEq] at hd
            obtain ⟨rfl, rfl⟩ := hd
            rw [h2] at hp
            simp only [Prod.mk.injEq, Except.ok.injEq] at hp
            obtain ⟨rfl, rfl⟩ := hp
            rw [h3] at hg
            simp only [Prod.mk.injEq, Except.ok.injEq] at hg
            obtain ⟨rfl, rfl⟩ := hg
            rw [h4] at hw
            simp at hw

/-- A run in which the photo does not decode: the error is that of the second stage with its
prefix, and the calls made are those of `detectFace` and of the first `readImage` only; the
overlay is not read and the output file is not created. -/
theorem run_photo_undecodable :
    run envPhotoUndecodable "face.xml" "photo.jpg" (11 / 10) 8 200 800 "gopher.png" 3 0 0
        "output.jpg" World.start
      = (some "read photo image: decode image: image: unknown format",
          { held := [Resource.file "photo.jpg", Resource.mat "photo.jpg"]
            calls := [Call.newCascadeClassifier, Call.classifierLoad "face.xml",
              Call.imRead "photo.jpg", Call.detectMultiScale, Call.classifierClose,
              Call.osOpen "photo.jpg", Call.imageDecode "photo.jpg"] }) := by
  rfl

/-! ## C9: the required flags -/

/-- C9: when one of `-classifier`, `-photo`, `-gopher` is the empty string, `main` ends with
a fatal error for a missing flag and the only call made is the printing of the usage, so
`run` is not called and nothing is loaded, detected or decoded; when all three are non-empty,
`main` calls `run` with the parsed values and reports its result. -/
theorem main_required_flags (env : Env) (f : Flags) (w : World) :
    ((f.classifierFilePath = "" ∨ f.photoImagePath = "" ∨ f.gopherImagePath = "") →
      ∃ msg, main env f w = (.fatal msg, w.call .flagUsage) ∧
        msg ∈ ["Flag -classifier value is required", "Flag -photo value is required",
          "Flag -gopher value is required"]) ∧
    ((f.classifierFilePath ≠ "" ∧ f.photoImagePath ≠ "" ∧ f.gopherImagePath ≠ "") →
      main env f w =
        match run env f.classifierFilePath f.photoImagePath f.photoDetectScale
            f.photoDetectMinNeighbours f.photoDetectMinSize f.photoDetectMaxSize
            f.gopherImagePath f.gopherSizeCoeff f.gopherXCoeff f.gopherYCoeff
            f.outputImagePath w with
        | (some err, w1) => (.fatal ("Error: " ++ err), w1)
        | (none, w1) => (.success, w1)) := by
  constructor
  · intro h
    unfold main
    by_cases h1 : f.classifierFilePath = ""
    · exact ⟨_, by rw [if_pos h1], by simp⟩
    · by_cases h2 : f.photoImagePath = ""
      · exact ⟨_, by rw [if_neg h1, if_pos h2], by simp⟩
      · have h3 : f.gopherImagePath = "" := by tauto
        exact ⟨_, by rw [if_neg h1, if_neg h2, if_pos h3], by simp⟩
  · rintro ⟨h1, h2, h3⟩
    unfold main
    rw [if_neg h1, if_neg h2, if_neg h3]

/-- C9, witness: without `-photo`, `main` is fatal and only prints the usage; with the three
flags present and every external call succeeding, `main` succeeds. -/
theorem main_required_flags_witness :
    (∃ msg, main envAllOk { flagsDefault with photoImagePath := "" } World.start
        = (.fatal msg, World.start.call .flagUsage) ∧
      msg ∈ ["Flag -classifier value is required", "Flag -photo value is required",
        "Flag -gopher value is required"]) ∧
    (main envAllOk flagsDefault World.start).1 = .success :=
  ⟨(main_required_flags envAllOk { flagsDefault with photoImagePath := "" } World.start).1
      (Or.inr (Or.inl rfl)),
    by
      rw [(main_required_flags envAllOk flagsDefault World.start).2
        ⟨by decide, by decide, by decide⟩]
      rfl⟩

/-! ## C10: resources held when the functions return -/

theorem readImage_held (env : Env) (fpath : String) (w : World)
    (h : env.osOpen fpath = none) :
    (readImage env fpath w).2.held = Resource.file fpath :: w.held := by
  unfold readImage
  simp only [h]
  cases env.imageDecode fpath <;> rfl

theorem writeOutputJpeg_held (env : Env) (fpath : String) (img : RGBAImage) (w : World) :
    (writeOutputJpeg env fpath img w).2.held = w.held := by
  unfold writeOutputJpeg
  cases env.osCreate fpath with
  | some err => rfl
  | none =>
    cases env.jpegEncode fpath img <;>
      simp [World.release, World.call, World.acquire]

theorem detectFace_held (env : Env) (classifierFilePath photoFilePath : String) (scale : ℚ)
    (minNeighbours minSize maxSize : Int) (w : World)
    (h : env.classifierLoad classifierFilePath = true) :
    (detectFace env classifierFilePath photoFilePath scale minNeighbours minSize maxSize
      w).2.held = Resource.mat photoFilePath :: w.held := by
  unfold detectFace
  simp only [h]
  cases env.imReadEmpty photoFilePath <;>
    simp [World.release, World.call, World.acquire]

/-- C10, the code at a failing input: with every external call succeeding, `readImage`
returns with the file it opened still held, and `detectFace` returns with the matrix read
by `IMRead` still held (its classifier is released); `writeOutputJpeg` returns with nothing
held. -/
theorem readImage_detectFace_leave_resources :
    (readImage envAllOk "photo.jpg" World.start).2.held = [Resource.file "photo.jpg"] ∧
    (detectFace envAllOk "face.xml" "photo.jpg" (11 / 10) 8 200 800 World.start).2.held
      = [Resource.mat "photo.jpg"] ∧
    (writeOutputJpeg envAllOk "output.jpg" (initialDst photo4x1) World.start).2.held = [] :=
  ⟨readImage_held envAllOk "photo.jpg" World.start rfl,
    detectFace_held envAllOk "face.xml" "photo.jpg" (11 / 10) 8 200 800 World.start rfl,
    writeOutputJpeg_held envAllOk "output.jpg" (initialDst photo4x1) World.start⟩

end Gopherize
